import Mathlib

/-!
Verification of the duckdb-crawler robots.txt / sitemap / scheduling core.

C++ strings are modelled as `List Char`; `std::string` operations used by the
sources (substr, find, trim loops) are given as executable Lean functions.
Doubles that are only compared and copied (crawl delays, request rates) are
modelled as exact rationals.
-/

namespace DuckdbCrawler

/-- C++ strings, modelled as lists of characters. -/
abbrev Str := List Char

/-- `std::isspace` in the default C locale: space, \t, \n, \v, \f, \r. -/
def isSpaceC (c : Char) : Bool :=
  c = ' ' || c = '\t' || c = '\n' || c = '\x0b' || c = '\x0c' || c = '\r'

/-- `std::tolower` in the default C locale (ASCII). -/
def toLowerC (c : Char) : Char :=
  if 'A' ≤ c ∧ c ≤ 'Z' then Char.ofNat (c.toNat + 32) else c

/-- `ToLower` from the robots parser: lowercase every character. -/
def toLowerStr (s : Str) : Str := s.map toLowerC

/-- `Trim` from the robots parser: drop whitespace from both ends
(the C++ loop computes the first and last non-space positions and takes
the substring between them, which is drop-from-front then drop-from-back). -/
def trimStr (s : Str) : Str :=
  ((s.dropWhile isSpaceC).reverse.dropWhile isSpaceC).reverse

/-- `StartsWithCaseInsensitive`: the first `pre.length` characters of `s`
agree with `pre` up to `tolower`; false when `s` is shorter than `pre`. -/
def startsWithCI : Str → Str → Bool
  | _, [] => true
  | [], _ :: _ => false
  | a :: s, b :: p => (toLowerC a = toLowerC b) && startsWithCI s p

/-- `ExtractValue(line, prefix_len)`: `Trim(line.substr(prefix_len))`. -/
def extractValue (line : Str) (k : Nat) : Str := trimStr (line.drop k)

/-- Split a string into lines the way `std::getline` on an
`istringstream` does: split at each newline; an empty input yields no
lines and a trailing newline yields no extra empty line. -/
def splitLinesModel : Str → List Str
  | [] => []
  | c :: s =>
    if c = '\n' then [] :: splitLinesModel s
    else
      match splitLinesModel s with
      | [] => [[c]]
      | l :: ls => (c :: l) :: ls

/-- Digits prefix of a string, as (digit list, remaining string). -/
def takeDigits (s : Str) : List Nat × Str :=
  match s with
  | [] => ([], [])
  | c :: rest =>
    if '0' ≤ c ∧ c ≤ '9' then
      let (ds, r) := takeDigits rest
      ((c.toNat - '0'.toNat) :: ds, r)
    else ([], s)

/-- Numeric value of a digit list read left to right. -/
def digitsVal (ds : List Nat) : Nat := ds.foldl (fun a d => a * 10 + d) 0

/-- Fractional value of a digit list (digits after the decimal point). -/
def fracVal (ds : List Nat) : ℚ := (digitsVal ds : ℚ) / ((10 : ℚ) ^ ds.length)

/-- Model of `std::stod` restricted to the plain decimal literals that occur
in robots.txt directives: optional sign, digits, optional fraction; trailing
junk is ignored, and `none` models the `std::invalid_argument` throw when no
digits are present.  (Exponents, hex, inf/nan are outside the model.) -/
def stodModel (s : Str) : Option ℚ :=
  let (neg, s1) : Bool × Str :=
    match s with
    | '-' :: r => (true, r)
    | '+' :: r => (false, r)
    | _ => (false, s)
  let (d1, s2) := takeDigits s1
  let d2 : List Nat :=
    match s2 with
    | '.' :: r => (takeDigits r).1
    | _ => []
  if d1 = [] ∧ d2 = [] then none
  else
    let v : ℚ := (digitsVal d1 : ℚ) + fracVal d2
    some (if neg then -v else v)

/-! ## Robots parser (src/unnamed/part_000, src/src/include/robots_parser.hpp) -/

/-- `RobotsRules` from robots_parser.hpp.  `crawl_delay` and `request_rate`
are doubles used only through comparisons and copies, modelled as exact
rationals; `-1` means not set. -/
structure RobotsRules where
  crawl_delay : ℚ := -1
  request_rate : ℚ := -1
  disallow : List Str := []
  allow : List Str := []
deriving DecidableEq, Inhabited, Repr

/-- `RobotsData` from robots_parser.hpp.  The `std::unordered_map` keyed by
lowercased user-agent is modelled as an association list; the list order
stands for the map's (unspecified) iteration order, and `Parse` inserts in
first-encounter order. -/
structure RobotsData where
  user_agents : List (Str × RobotsRules) := []
  sitemaps : List Str := []
deriving DecidableEq, Inhabited, Repr

/-- The C++ default-constructed `RobotsRules`. -/
def emptyRules : RobotsRules := { crawl_delay := -1, request_rate := -1 }

/-- The C++ default-constructed `RobotsData`. -/
def emptyData : RobotsData := { user_agents := [], sitemaps := [] }

/-- `unordered_map::find` on the association list (first entry with the key). -/
def uaFind (m : List (Str × RobotsRules)) (k : Str) : Option RobotsRules :=
  (m.find? (fun e => e.1 = k)).map (fun e => e.2)

/-- `data.user_agents[ua] = RobotsRules()` guarded by the `find == end` check:
insert a default entry if the key is absent. -/
def uaInsertIfAbsent (m : List (Str × RobotsRules)) (k : Str) :
    List (Str × RobotsRules) :=
  if (m.find? (fun e => e.1 = k)).isSome then m else m ++ [(k, emptyRules)]

/-- Mutation through the `current_rules` pointer: rewrite the entry with the
given key. -/
def uaUpdate (m : List (Str × RobotsRules)) (k : Str)
    (f : RobotsRules → RobotsRules) : List (Str × RobotsRules) :=
  m.map (fun e => if e.1 = k then (e.1, f e.2) else e)

/-- Parser state of `RobotsParser::Parse`: the data built so far and the
key the `current_rules` pointer refers to (`none` models the null pointer). -/
structure ParseState where
  data : RobotsData := emptyData
  cur : Option Str := none
deriving DecidableEq, Repr

def uaDirKey : Str := "user-agent:".toList
def crawlDelayKey : Str := "crawl-delay:".toList
def requestRateKey : Str := "request-rate:".toList
def disallowKey : Str := "disallow:".toList
def allowDirKey : Str := "allow:".toList
def sitemapKey : Str := "sitemap:".toList

/-- One iteration of the `while (std::getline…)` loop of
`RobotsParser::Parse`.  In the C++ the rule-directive branches are guarded by
`… && current_rules`; when `current_rules` is null such a line matches no
later branch either (the directive keys are pairwise non-prefixes), so the
net effect modelled here is an unchanged state. -/
def parseLine (st : ParseState) (rawLine : Str) : ParseState :=
  let line := trimStr rawLine
  if line = [] ∨ line.head? = some '#' then st
  else if startsWithCI line uaDirKey then
    let ua := toLowerStr (extractValue line 11)
    if ua = [] then st
    else { data := { st.data with user_agents := uaInsertIfAbsent st.data.user_agents ua },
           cur := some ua }
  else if startsWithCI line crawlDelayKey then
    match st.cur with
    | none => st
    | some k =>
      match stodModel (extractValue line 12) with
      | none => st
      | some d =>
        if 0 ≤ d then
          { st with data := { st.data with
              user_agents := uaUpdate st.data.user_agents k
                (fun r => { r with crawl_delay := d }) } }
        else st
  else if startsWithCI line requestRateKey then
    match st.cur with
    | none => st
    | some k =>
      let rate := extractValue line 13
      match rate.findIdx? (· = '/') with
      | none => st
      | some slash =>
        match stodModel (rate.take slash), stodModel (rate.drop (slash + 1)) with
        | some n, some m =>
          if 0 < n ∧ 0 < m then
            { st with data := { st.data with
                user_agents := uaUpdate st.data.user_agents k
                  (fun r => { r with request_rate := m / n }) } }
          else st
        | _, _ => st
  else if startsWithCI line disallowKey then
    match st.cur with
    | none => st
    | some k =>
      let path := extractValue line 9
      if path = [] then st
      else { st with data := { st.data with
               user_agents := uaUpdate st.data.user_agents k
                 (fun r => { r with disallow := r.disallow ++ [path] }) } }
  else if startsWithCI line allowDirKey then
    match st.cur with
    | none => st
    | some k =>
      let path := extractValue line 6
      if path = [] then st
      else { st with data := { st.data with
               user_agents := uaUpdate st.data.user_agents k
                 (fun r => { r with allow := r.allow ++ [path] }) } }
  else if startsWithCI line sitemapKey then
    let url := extractValue line 8
    if url = [] then st
    else { st with data := { st.data with sitemaps := st.data.sitemaps ++ [url] } }
  else st

/-- `RobotsParser::Parse` on an already-split line list. -/
def parseRobotsLines (ls : List Str) : RobotsData :=
  (ls.foldl parseLine { data := emptyData, cur := none }).data

/-- `RobotsParser::Parse`. -/
def parseRobots (content : Str) : RobotsData :=
  parseRobotsLines (splitLinesModel content)

/-- `RobotsParser::GetRulesForUserAgent`: exact lookup of the lowercased
user-agent, else the first entry in iteration order whose key (other than
`*`) occurs at position 0 of the user-agent, else the `*` entry, else
default rules. -/
def getRulesForUserAgent (data : RobotsData) (user_agent : Str) : RobotsRules :=
  let ual := toLowerStr user_agent
  match uaFind data.user_agents ual with
  | some r => r
  | none =>
    match data.user_agents.find? (fun e => e.1 ≠ ['*'] && e.1.isPrefixOf ual) with
    | some e => e.2
    | none =>
      match uaFind data.user_agents ['*'] with
      | some r => r
      | none => emptyRules

/-- `RobotsParser::IsAllowed`: the first loop returns true at the first
`allow` entry occurring at position 0 of the path; the second returns false
at the first non-empty such `disallow` entry; otherwise allowed. -/
def isAllowed (rules : RobotsRules) (path : Str) : Bool :=
  if rules.allow.any (fun a => a.isPrefixOf path) then true
  else if rules.disallow.any (fun d => !(d = []) && d.isPrefixOf path) then false
  else true

/-- `RobotsRules::GetEffectiveDelay` from robots_parser.hpp. -/
def getEffectiveDelay (r : RobotsRules) : ℚ :=
  if 0 ≤ r.crawl_delay ∧ 0 ≤ r.request_rate then max r.crawl_delay r.request_rate
  else if 0 ≤ r.crawl_delay then r.crawl_delay
  else if 0 ≤ r.request_rate then r.request_rate
  else -1

/-! ### The spec's robots semantics (for comparison with the code) -/

/-- Modelled from the spec: rule matching for the path decision.  Matching
is prefix-based on the path, and a trailing `$` anchors the match at the end
of the path, i.e. the rule without the `$` must equal the whole path. -/
def specRuleMatches (rule path : Str) : Bool :=
  if rule.getLast? = some '$' then path = rule.dropLast else rule.isPrefixOf path

/-- Modelled from the spec: the path decision.  A matching `Allow` wins over
any `Disallow`; else a matching `Disallow` denies; else allow.  (The spec's
"longest-matching" qualifier does not affect the decision, which only
depends on whether some rule of each kind matches.) -/
def specPathAllowed (rules : RobotsRules) (path : Str) : Bool :=
  if rules.allow.any (fun a => specRuleMatches a path) then true
  else if rules.disallow.any (fun d => specRuleMatches d path) then false
  else true

/-- Modelled from the spec: user-agent selection with a longest-prefix
fallback: exact match, then the block whose name is the longest prefix of
the lowercased user-agent among all matching blocks, then `*`, else empty
rules. -/
def specGetRulesForUserAgent (data : RobotsData) (user_agent : Str) : RobotsRules :=
  let ual := toLowerStr user_agent
  match uaFind data.user_agents ual with
  | some r => r
  | none =>
    let candidates := data.user_agents.filter (fun e => e.1 ≠ ['*'] && e.1.isPrefixOf ual)
    match candidates.foldl
        (fun best e =>
          match best with
          | none => some e
          | some b => if b.1.length < e.1.length then some e else some b)
        none with
    | some e => e.2
    | none =>
      match uaFind data.user_agents ['*'] with
      | some r => r
      | none => emptyRules

/-! ## Sitemap parser (src/src/sitemap_parser.cpp) -/

/-- `std::string::find(pat)` starting at offset 0: the first index at which
`pat` occurs in `hay`, `none` for `npos`. -/
def strFind : Str → Str → Option Nat
  | hay, pat =>
    if pat.isPrefixOf hay then some 0
    else
      match hay with
      | [] => none
      | _ :: t => (strFind t pat).map (· + 1)

/-- `std::string::find(pat, pos)`. -/
def strFindFrom (hay pat : Str) (pos : Nat) : Option Nat :=
  (strFind (hay.drop pos) pat).map (· + pos)

/-- `std::string::substr(pos, len)`. -/
def substrM (s : Str) (pos len : Nat) : Str := (s.drop pos).take len

/-- The whitespace set `" \t\n\r"` used by the sitemap parser's inline
trimming. -/
def isWs4 (c : Char) : Bool := c = ' ' || c = '\t' || c = '\n' || c = '\r'

/-- The sitemap parser's inline trim: `find_first_not_of`/`find_last_not_of`
over `" \t\n\r"` followed by `substr`; when the string has no
non-whitespace character both positions are `npos` and the string is left
unchanged. -/
def sitemapTrim (s : Str) : Str :=
  if s.all isWs4 then s
  else ((s.dropWhile isWs4).reverse.dropWhile isWs4).reverse

/-- `ExtractTagContent(xml, tag, start_pos)`: the content of the first
`<tag>…</tag>` occurrence at or after `start_pos` (falling back to
`<tag …attrs>` when the plain open tag is absent), together with the
position just past the close tag (`none` for `npos`). -/
def extractTagContent (xml tag : Str) (startPos : Nat) : Str × Option Nat :=
  let openTag := '<' :: tag ++ ['>']
  let closeTag := '<' :: '/' :: tag ++ ['>']
  let tagStart? : Option Nat :=
    match strFindFrom xml openTag startPos with
    | some ts => some (ts + openTag.length)
    | none =>
      match strFindFrom xml ('<' :: tag) startPos with
      | none => none
      | some ts =>
        match strFindFrom xml ['>'] ts with
        | none => none
        | some attrEnd => some (attrEnd + 1)
  match tagStart? with
  | none => ([], none)
  | some tagStart =>
    match strFindFrom xml closeTag tagStart with
    | none => ([], none)
    | some tagEnd =>
      (substrM xml tagStart (tagEnd - tagStart), some (tagEnd + closeTag.length))

/-- `FindAllBlocks(xml, tag)`: all `<tag…</tag>` blocks, scanning left to
right, with a step counter making the recursion structural.  Each
iteration advances `pos` past a close tag (so by at least one position)
and the loop only runs while `pos < xml.length`, so `xml.length + 1`
steps always suffice and the counter never runs out. -/
def findAllBlocksAux (xml tag : Str) : Nat → Nat → List Str
  | 0, _ => []
  | fuel + 1, pos =>
    if pos < xml.length then
      match strFindFrom xml ('<' :: tag) pos with
      | none => []
      | some blockStart =>
        match strFindFrom xml ('<' :: '/' :: tag ++ ['>']) blockStart with
        | none => []
        | some closeIdx =>
          let blockEnd := closeIdx + ('<' :: '/' :: tag ++ ['>']).length
          substrM xml blockStart (blockEnd - blockStart) :: findAllBlocksAux xml tag fuel blockEnd
    else []

def findAllBlocks (xml tag : Str) (pos : Nat) : List Str :=
  findAllBlocksAux xml tag (xml.length + 1) pos

/-- `SitemapEntry` from sitemap_parser (header in src/unnamed/part_001). -/
structure SitemapEntry where
  loc : Str := []
  lastmod : Str := []
  changefreq : Str := []
  priority : Str := []
deriving DecidableEq, Inhabited, Repr

/-- `SitemapData` from sitemap_parser (header in src/unnamed/part_001). -/
structure SitemapData where
  urls : List SitemapEntry := []
  sitemap_urls : List Str := []
  is_index : Bool := false
deriving DecidableEq, Inhabited, Repr

/-- The parser's conditional trim of a `<loc>` value: applied only when
both `find_first_not_of` and `find_last_not_of` succeed, i.e. when some
non-whitespace character is present. -/
def locAdjust (loc : Str) : Str := sitemapTrim loc

/-- `SitemapParser::Parse`. -/
def sitemapParse (xml : Str) : SitemapData :=
  if (strFind xml "<sitemapindex".toList).isSome then
    { is_index := true
      urls := []
      sitemap_urls :=
        (findAllBlocks xml "sitemap".toList 0).filterMap (fun block =>
          let loc := (extractTagContent block "loc".toList 0).1
          if loc = [] then none
          else if loc.all isWs4 then none
          else some (sitemapTrim loc)) }
  else
    { is_index := false
      sitemap_urls := []
      urls :=
        (findAllBlocks xml "url".toList 0).filterMap (fun block =>
          let loc0 := (extractTagContent block "loc".toList 0).1
          let loc := if loc0 = [] then loc0 else locAdjust loc0
          let entry : SitemapEntry :=
            { loc := loc
              lastmod := (extractTagContent block "lastmod".toList 0).1
              changefreq := (extractTagContent block "changefreq".toList 0).1
              priority := (extractTagContent block "priority".toList 0).1 }
          if entry.loc = [] then none else some entry) }

/-! ## Thread-safe URL queue (src/src/include/thread_utils.hpp,
src/src/css_extract_function.cpp) -/

/-- `UrlQueueEntry` from thread_utils.hpp.  `earliest_fetch` is a
`steady_clock::time_point` used only through comparisons, modelled as a
tick count. -/
structure UrlQueueEntry where
  url : Str := []
  retry_count : Int := 0
  is_update : Bool := false
  earliest_fetch : Nat := 0
deriving DecidableEq, Inhabited, Repr

/-- `UrlQueueEntry::operator>`: compares `earliest_fetch` only. -/
def entryGT (a b : UrlQueueEntry) : Prop := a.earliest_fetch > b.earliest_fetch

/-- The priority key: with comparator `std::greater` (built on `operator>`),
`std::priority_queue` keeps the entry with the smallest `earliest_fetch`
on top. -/
def ekey (e : UrlQueueEntry) : Nat := e.earliest_fetch

/-- Swap two positions of the heap array. -/
def hswap (l : List UrlQueueEntry) (i j : Nat) : List UrlQueueEntry :=
  (l.set i (l.getD j default)).set j (l.getD i default)

/-- Sift-up of `std::push_heap` with the queue's comparator, with a step
counter making the recursion structural: move the element at `i` towards
the root while it is strictly smaller than its parent; an equal key stops
the walk.  The parent index `(i-1)/2` is strictly below `i`, so `i + 1`
steps always suffice and the counter never runs out. -/
def siftUpAux : Nat → List UrlQueueEntry → Nat → List UrlQueueEntry
  | 0, l, _ => l
  | fuel + 1, l, i =>
    if i = 0 then l
    else
      let p := (i - 1) / 2
      if ekey (l.getD i default) < ekey (l.getD p default) then siftUpAux fuel (hswap l i p) p
      else l

def siftUp (l : List UrlQueueEntry) (i : Nat) : List UrlQueueEntry :=
  siftUpAux (i + 1) l i

/-- `ThreadSafeUrlQueue::Push` on the heap array:
`vector::push_back` followed by `std::push_heap`. -/
def heapPush (l : List UrlQueueEntry) (e : UrlQueueEntry) : List UrlQueueEntry :=
  siftUp (l ++ [e]) l.length

/-- The smaller-child selection of one sift-down step: the index among
`i` and its existing children holding the strictly smallest key, preferring
`i`, then the left child, on ties. -/
def pickChild (l : List UrlQueueEntry) (i : Nat) : Nat :=
  let n := l.length
  let li := 2 * i + 1
  let ri := 2 * i + 2
  let m1 := if li < n ∧ ekey (l.getD li default) < ekey (l.getD i default) then li else i
  if ri < n ∧ ekey (l.getD ri default) < ekey (l.getD m1 default) then ri else m1

/-- Sift-down of `std::pop_heap` with the queue's comparator, with a step
counter making the recursion structural: repeatedly swap the element at
`i` with its strictly smallest child; equal keys cause no movement.  Each
step moves to a child index, which is strictly larger and below the array
length, so `length + 1` steps always suffice and the counter never runs
out. -/
def siftDownAux : Nat → List UrlQueueEntry → Nat → List UrlQueueEntry
  | 0, l, _ => l
  | fuel + 1, l, i =>
    let m := pickChild l i
    if m = i then l
    else siftDownAux fuel (hswap l i m) m

def siftDown (l : List UrlQueueEntry) (i : Nat) : List UrlQueueEntry :=
  siftDownAux (l.length + 1) l i

/-- `ThreadSafeUrlQueue::TryPop`/`WaitAndPop` extraction on the heap array:
`top()` is the first element; `pop()` is `std::pop_heap` (move the last
element to the root and sift it down) plus `pop_back`. -/
def heapPop (l : List UrlQueueEntry) : Option (UrlQueueEntry × List UrlQueueEntry) :=
  match l with
  | [] => none
  | x :: xs => some (x, siftDown ((x :: xs).dropLast.set 0 ((x :: xs).getLast (by simp))) 0)

/-- `ThreadSafeUrlQueue` state: the heap array and the shutdown flag.  The
mutex makes every operation atomic, so the queue is modelled by sequential
state passing. -/
structure QueueState where
  heap : List UrlQueueEntry := []
  shutdown : Bool := false
deriving DecidableEq, Inhabited, Repr

/-- `ThreadSafeUrlQueue::TryPop`: empty queue fails, otherwise pop. -/
def tryPop (s : QueueState) : Option UrlQueueEntry × QueueState :=
  match heapPop s.heap with
  | none => (none, s)
  | some (e, h) => (some e, { s with heap := h })

/-- `ThreadSafeUrlQueue::WaitAndPop`: the `wait_for` predicate is
`!queue_.empty() || shutdown_`; when it never becomes true the wait times
out and returns false (no concurrent push is modelled); then
`shutdown_ && queue_.empty()` fails, else pop. -/
def waitAndPop (s : QueueState) : Option UrlQueueEntry × QueueState :=
  if ¬(s.heap ≠ [] ∨ s.shutdown = true) then (none, s)
  else if s.shutdown = true ∧ s.heap = [] then (none, s)
  else
    match heapPop s.heap with
    | none => (none, s)
    | some (e, h) => (some e, { s with heap := h })

/-- `ThreadSafeUrlQueue::Push`. -/
def queuePush (s : QueueState) (e : UrlQueueEntry) : QueueState :=
  { s with heap := heapPush s.heap e }

/-- `ThreadSafeUrlQueue::Shutdown`: sets the flag (and notifies all
waiters, a concurrency effect outside this model). -/
def queueShutdown (s : QueueState) : QueueState :=
  { s with shutdown := true }

/-! ## Streaming crawl worker (src/src/crawl_stream_function.cpp) -/

/-- `BatchCrawlEntry` as used by `StreamCrawlWorker` (its declaring header
crawler_internal.hpp is not part of the sources; fields are those the
worker reads and writes). -/
structure BatchCrawlEntry where
  url : Str := []
  status_code : Int := 0
  content_type : Str := []
  body : Str := []
  error : Str := []
  elapsed_ms : Int := 0
  final_url : Str := []
  redirect_count : Int := 0
  jsonld : Str := []
  opengraph : Str := []
  meta : Str := []
deriving DecidableEq, Inhabited, Repr

/-- The robots gate and result push of one `StreamCrawlWorker` loop
iteration (crawl_stream_function.cpp lines 110–132 and the `Push` that
follows): when `respect_robots_txt` is set and `IsAllowed` denies the path,
the worker `continue`s, pushing no result row at all; otherwise the fetched
entry is pushed.  The HTTP fetch is abstracted as the already-built entry. -/
def streamCrawlProcessUrl (respect_robots_txt : Bool) (rules : RobotsRules)
    (path : Str) (fetched : BatchCrawlEntry) : Option BatchCrawlEntry :=
  let robots_allow := if respect_robots_txt then isAllowed rules path else true
  if robots_allow = false then none
  else some fetched

/-! ## Fibonacci backoff (src/TODO.md §8.2; the compiled implementation is
not among the sources, so the function is modelled from the repository's
own code snippet) -/

/-- The loop of `FibonacciBackoffSeconds` with `k` iterations left:
`temp = a + b; a = b; b = temp; if (b > max_seconds) return max_seconds;`
then `return std::min(b, max_seconds)`. -/
def fibLoop : Nat → Int → Int → Int → Int
  | 0, _, b, maxSeconds => min b maxSeconds
  | k + 1, a, b, maxSeconds =>
    let temp := a + b
    if temp > maxSeconds then maxSeconds else fibLoop k b temp maxSeconds

/-- `FibonacciBackoffSeconds(n, max_seconds)` from the TODO.md §8.2 code
snippet: `if (n <= 1) return 3; int a = 3, b = 3;` then the loop runs for
`i = 2 … n`. -/
def fibonacciBackoffSeconds (n : Nat) (maxSeconds : Int) : Int :=
  if n ≤ 1 then 3 else fibLoop (n - 1) 3 3 maxSeconds

/-- Modelled from the spec: the documented backoff sequence, indexed from 1:
3, 3, 6, 9, 15, 24, … with `specFibSeq (n+3) = specFibSeq (n+1) +
specFibSeq (n+2)` (`specFibSeq 0` pads the 1-based indexing). -/
def specFibSeq : Nat → Int
  | 0 => 3
  | 1 => 3
  | 2 => 3
  | n + 3 => specFibSeq (n + 1) + specFibSeq (n + 2)

/-- A robots.txt line whose trimmed form carries one of the four
rule directives (`Allow`, `Disallow`, `Crawl-delay`, `Request-rate`). -/
def isRuleDirectiveLine (l : Str) : Bool :=
  startsWithCI (trimStr l) crawlDelayKey || startsWithCI (trimStr l) requestRateKey ||
    startsWithCI (trimStr l) disallowKey || startsWithCI (trimStr l) allowDirKey

/-- The binary-heap invariant of the queue's array: every non-root element
is at least its parent under the priority key. -/
def heapInv (l : List UrlQueueEntry) : Prop :=
  ∀ j < l.length, 0 < j →
    ekey (l.getD ((j - 1) / 2) default) ≤ ekey (l.getD j default)

instance (l : List UrlQueueEntry) : Decidable (heapInv l) :=
  decidable_of_iff (∀ j < l.length, 0 < j →
    ekey (l.getD ((j - 1) / 2) default) ≤ ekey (l.getD j default)) Iff.rfl

/-- Precondition of `siftUp` at hole `i`: the heap property holds at every
edge not ending in `i`, and the children of `i` (if any) also dominate the
parent of `i`. -/
def suInv (l : List UrlQueueEntry) (i : Nat) : Prop :=
  (∀ j < l.length, 0 < j → j ≠ i →
      ekey (l.getD ((j - 1) / 2) default) ≤ ekey (l.getD j default)) ∧
    (0 < i → ∀ j < l.length, (j - 1) / 2 = i →
      ekey (l.getD ((i - 1) / 2) default) ≤ ekey (l.getD j default))

/-- Precondition of `siftDown` at hole `i`: the heap property holds at
every edge not starting at `i`, and the children of `i` (if any) dominate
the parent of `i`. -/
def sdInv (l : List UrlQueueEntry) (i : Nat) : Prop :=
  (∀ j < l.length, 0 < j → (j - 1) / 2 ≠ i →
      ekey (l.getD ((j - 1) / 2) default) ≤ ekey (l.getD j default)) ∧
    (0 < i → ∀ j < l.length, (j - 1) / 2 = i →
      ekey (l.getD ((i - 1) / 2) default) ≤ ekey (l.getD j default))

/-! ## Concrete example data used by the theorems below -/

/-- The robots.txt content of the C4 counterexample: two consecutive
`User-agent` lines followed by one `Disallow` rule. -/
def c4Data : RobotsData :=
  parseRobots "User-agent: a\nUser-agent: b\nDisallow: /x".toList

/-- Queue entries for the C6 counterexample: distinct URLs, all with the
same `earliest_fetch`. -/
def c6Entry (u : Str) : UrlQueueEntry := { url := u, earliest_fetch := 7 }

/-- The heap after pushing the four equal-time entries 1, 2, 3, 4 in this
order. -/
def c6Heap : List UrlQueueEntry :=
  heapPush (heapPush (heapPush (heapPush [] (c6Entry "1".toList)) (c6Entry "2".toList))
    (c6Entry "3".toList)) (c6Entry "4".toList)

/-- The sitemap XML of the C8 counterexample: a `<lastmod>` value with
surrounding whitespace. -/
def c8Xml : Str := "<url><loc>u</loc><lastmod> x </lastmod></url>".toList

/-- The rules from the C1 counterexample: `Disallow: /a$`. -/
def c1Rules : RobotsRules := { disallow := ["/a$".toList] }

/-- The rules of scenario S6: `Disallow: /private`. -/
def c2Rules : RobotsRules := { disallow := ["/private".toList] }

/-- The parsed robots data of the C3 counterexample: blocks `my` and
`mybot`, in this iteration order. -/
def c3Data : RobotsData :=
  parseRobots "User-agent: my\nDisallow: /m\nUser-agent: mybot\nDisallow: /b".toList

/-- The entry of the C5 counterexample. -/
def c5Entry : UrlQueueEntry := { url := "q".toList }

/-! ## Lemmas about the string model -/

theorem pickChild_ne_bounds {l : List UrlQueueEntry} {i : Nat}
    (h : pickChild l i ≠ i) : i < pickChild l i ∧ pickChild l i < l.length := by
  simp only [pickChild] at h ⊢
  by_cases h1 : 2 * i + 1 < l.length ∧ ekey (l.getD (2 * i + 1) default) < ekey (l.getD i default)
  · rw [if_pos h1] at h ⊢
    by_cases h2 : 2 * i + 2 < l.length ∧
        ekey (l.getD (2 * i + 2) default) < ekey (l.getD (2 * i + 1) default)
    · rw [if_pos h2] at h ⊢
      omega
    · rw [if_neg h2] at h ⊢
      omega
  · rw [if_neg h1] at h ⊢
    by_cases h2 : 2 * i + 2 < l.length ∧
        ekey (l.getD (2 * i + 2) default) < ekey (l.getD i default)
    · rw [if_pos h2] at h ⊢
      omega
    · rw [if_neg h2] at h
      exact absurd rfl h

theorem trimStr_eq_rdrop (s : Str) :
    trimStr s = List.rdropWhile isSpaceC (List.dropWhile isSpaceC s) := by
  simp [trimStr, List.rdropWhile]

theorem trim_parts_of_fixed {p : Char → Bool} {l : Str}
    (h : List.rdropWhile p (List.dropWhile p l) = l) :
    List.dropWhile p l = l ∧ List.rdropWhile p l = l := by
  have hpre : List.rdropWhile p (List.dropWhile p l) <+: List.dropWhile p l :=
    List.rdropWhile_prefix p _
  have hsuf : List.dropWhile p l <:+ l := List.dropWhile_suffix p
  have hdl : List.dropWhile p l = l :=
    hsuf.eq_of_length (Nat.le_antisymm hsuf.length_le (by simpa [h] using hpre.length_le))
  exact ⟨hdl, by rwa [hdl] at h⟩

theorem trimStr_fixed_parts {l : Str} (h : trimStr l = l) :
    List.dropWhile isSpaceC l = l ∧ List.rdropWhile isSpaceC l = l :=
  trim_parts_of_fixed (by rwa [trimStr_eq_rdrop] at h)

theorem trimStr_eq_self_of_ends {l : Str}
    (h1 : ∀ c, l.head? = some c → isSpaceC c = false)
    (h2 : ∀ c, l.getLast? = some c → isSpaceC c = false) : trimStr l = l := by
  rw [trimStr_eq_rdrop]
  have hd : List.dropWhile isSpaceC l = l := by
    rw [List.dropWhile_eq_self_iff]
    intro hl
    have : l.head? = some (l.get ⟨0, hl⟩) := by
      cases l with
      | nil => simp at hl
      | cons a t => simp
    simpa using h1 _ this
  rw [hd, List.rdropWhile_eq_self_iff]
  intro hl
  have : l.getLast? = some (l.getLast hl) := List.getLast?_eq_getLast_of_ne_nil hl
  simpa using h2 _ this

theorem trimStr_getLast_not_space {l : Str} (h : trimStr l = l) (hne : l ≠ []) :
    ∀ c, l.getLast? = some c → isSpaceC c = false := by
  intro c hc
  have hr := (trimStr_fixed_parts h).2
  rw [List.rdropWhile_eq_self_iff] at hr
  have := hr hne
  rw [List.getLast?_eq_getLast_of_ne_nil hne] at hc
  simp only [Option.some.injEq] at hc
  subst hc
  simpa using this

theorem trimStr_cons_space (a : Str) : trimStr (' ' :: a) = trimStr a := by
  have h : List.dropWhile isSpaceC (' ' :: a) = List.dropWhile isSpaceC a := by
    have hsp : isSpaceC ' ' = true := rfl
    rw [List.dropWhile_cons, if_pos hsp]
  rw [trimStr_eq_rdrop, trimStr_eq_rdrop, h]

theorem startsWithCI_append {k k' : Str} (s : Str)
    (h : k.map toLowerC = k'.map toLowerC) : startsWithCI (k ++ s) k' = true := by
  induction k generalizing k' with
  | nil =>
    cases k' with
    | nil => simp [startsWithCI]
    | cons b t => simp at h
  | cons a t ih =>
    cases k' with
    | nil => simp [startsWithCI]
    | cons b t' =>
      simp only [List.map_cons, List.cons.injEq] at h
      simp [startsWithCI, h.1, ih h.2]

theorem startsWithCI_head_false {c d : Char} (s k : Str) (h : ¬toLowerC c = toLowerC d) :
    startsWithCI (c :: s) (d :: k) = false := by
  simp [startsWithCI, h]

/-! ## Claim C1: the path decision -/

/-- C1 counterexample: on rules `Disallow: /a$` and path `/a`, the code
allows (it treats `$` as a literal character, so `/a$` is not a prefix of
`/a`) while the spec's anchored decision denies; hence `IsAllowed` does
not implement the spec's path decision. -/
theorem robots_isAllowed_spec_mismatch :
    isAllowed c1Rules "/a".toList = true ∧ specPathAllowed c1Rules "/a".toList = false := by
  decide

/-- C1 (amended): `IsAllowed` decides by literal prefix matching with no
`$` anchoring (and no longest-match selection, which for this decision is
equivalent to any-match): the path is allowed iff some `Allow` rule is a
literal prefix of it, or no non-empty `Disallow` rule is. -/
theorem robots_isAllowed_literal_prefix_decision (rules : RobotsRules) (path : Str) :
    isAllowed rules path = true ↔
      (∃ a ∈ rules.allow, a.isPrefixOf path = true) ∨
        (∀ d ∈ rules.disallow, d = [] ∨ d.isPrefixOf path = false) := by
  unfold isAllowed
  by_cases h1 : rules.allow.any (fun a => a.isPrefixOf path) = true
  · rw [if_pos h1]
    refine iff_of_true rfl (Or.inl ?_)
    simpa [List.any_eq_true] using h1
  · rw [if_neg h1]
    by_cases h2 : rules.disallow.any (fun d => !(d = []) && d.isPrefixOf path) = true
    · rw [if_pos h2]
      refine iff_of_false (by simp) ?_
      rw [List.any_eq_true] at h1 h2
      push_neg at h1
      rintro (⟨a, ha, hpre⟩ | hall)
      · exact absurd hpre (by simpa using h1 a ha)
      · rcases h2 with ⟨d, hd, hcond⟩
        rcases hall d hd with hnil | hnpre
        · subst hnil
          simp at hcond
        · simp [hnpre] at hcond
    · rw [if_neg h2]
      refine iff_of_true rfl ?_
      rw [List.any_eq_true] at h2
      push_neg at h2
      right
      intro d hd
      by_cases hnil : d = []
      · exact Or.inl hnil
      · right
        have := h2 d hd
        by_contra hc
        simp only [Bool.not_eq_false] at hc
        simp [hnil, hc] at this

/-! ## Claim C2: robots-disallow handling in the streaming crawl -/

/-- C2: with `respect_robots_txt` on and a path the rules disallow,
`StreamCrawlWorker` emits no result row at all — not a synthetic
`http_status = -1` row; the function has no `log_skipped` option. -/
theorem streamCrawl_disallowed_row_dropped :
    isAllowed c2Rules "/private/x".toList = false ∧
      streamCrawlProcessUrl true c2Rules "/private/x".toList
        { url := "https://h/private/x".toList, status_code := 200 } = none := by
  decide

/-! ## Claim C3: user-agent selection -/

/-- C3 counterexample: for user-agent `MyBot/1.0` both block names `my`
and `mybot` are prefixes; the code returns the first matching block in
iteration order (`my`), not the longest-prefix block (`mybot`) that the
spec's selection picks. -/
theorem getRules_longest_prefix_mismatch :
    getRulesForUserAgent c3Data "MyBot/1.0".toList
        = { emptyRules with disallow := ["/m".toList] } ∧
      specGetRulesForUserAgent c3Data "MyBot/1.0".toList
        = { emptyRules with disallow := ["/b".toList] } ∧
      ¬({ emptyRules with disallow := ["/m".toList] } : RobotsRules)
        = { emptyRules with disallow := ["/b".toList] } := by
  decide

/-- C3 (amended): `GetRulesForUserAgent` selects, in order: the exact match
on the lowercased user-agent; otherwise the first block in the map's
iteration order whose name (other than `*`) is a prefix of the lowercased
user-agent — not necessarily the longest such block; otherwise the `*`
block; otherwise default rules that allow everything. -/
theorem getRules_selection_order (data : RobotsData) (ua : Str) :
    (∀ r, uaFind data.user_agents (toLowerStr ua) = some r →
        getRulesForUserAgent data ua = r) ∧
      (uaFind data.user_agents (toLowerStr ua) = none →
        ∀ e, data.user_agents.find?
            (fun e => e.1 ≠ ['*'] && e.1.isPrefixOf (toLowerStr ua)) = some e →
          getRulesForUserAgent data ua = e.2) ∧
      (uaFind data.user_agents (toLowerStr ua) = none →
        data.user_agents.find?
            (fun e => e.1 ≠ ['*'] && e.1.isPrefixOf (toLowerStr ua)) = none →
        ∀ r, uaFind data.user_agents ['*'] = some r →
          getRulesForUserAgent data ua = r) ∧
      (uaFind data.user_agents (toLowerStr ua) = none →
        data.user_agents.find?
            (fun e => e.1 ≠ ['*'] && e.1.isPrefixOf (toLowerStr ua)) = none →
        uaFind data.user_agents ['*'] = none →
        getRulesForUserAgent data ua = emptyRules) := by
  refine ⟨?_, ?_, ?_, ?_⟩
  · intro r h
    simp [getRulesForUserAgent, h]
  · intro h e he
    simp only [ne_eq, decide_not] at he
    simp [getRulesForUserAgent, h, he]
  · intro h1 h2 r h3
    simp only [ne_eq, decide_not] at h2
    simp [getRulesForUserAgent, h1, h2, h3]
  · intro h1 h2 h3
    simp only [ne_eq, decide_not] at h2
    simp [getRulesForUserAgent, h1, h2, h3]

/-- C3 witness: the prefix-fallback clause applied to the counterexample
data. -/
theorem getRules_selection_order_witness :
    getRulesForUserAgent c3Data "MyBot/1.0".toList
      = ("my".toList, ({ emptyRules with disallow := ["/m".toList] } : RobotsRules)).2 :=
  (getRules_selection_order c3Data "MyBot/1.0".toList).2.1 (by decide)
    ("my".toList, { emptyRules with disallow := ["/m".toList] }) (by decide)

/-! ## Claim C5: queue shutdown -/

/-- C5 counterexample: push one entry, shut the queue down; both `TryPop`
and `WaitAndPop` still return the entry, not empty. -/
theorem queue_shutdown_pop_nonempty :
    (tryPop (queueShutdown (queuePush { heap := [], shutdown := false } c5Entry))).1
        = some c5Entry ∧
      (waitAndPop (queueShutdown (queuePush { heap := [], shutdown := false } c5Entry))).1
        = some c5Entry := by
  decide

/-- C5 (amended): `Shutdown` sets the flag; a subsequent pop returns empty
exactly when the queue is empty — remaining entries are still drained by
both `TryPop` and `WaitAndPop` (`WaitAndPop` no longer blocks once the
flag is set). -/
theorem queue_shutdown_drains (s : QueueState) :
    (queueShutdown s).shutdown = true ∧
      (s.heap = [] →
        tryPop (queueShutdown s) = (none, queueShutdown s) ∧
          waitAndPop (queueShutdown s) = (none, queueShutdown s)) ∧
      (s.heap ≠ [] →
        (tryPop (queueShutdown s)).1.isSome = true ∧
          (waitAndPop (queueShutdown s)).1.isSome = true) := by
  refine ⟨rfl, ?_, ?_⟩
  · intro h
    constructor
    · simp [tryPop, queueShutdown, heapPop, h]
    · simp [waitAndPop, queueShutdown, h]
  · intro h
    cases hh : s.heap with
    | nil => exact absurd hh h
    | cons x xs =>
      constructor
      · simp [tryPop, queueShutdown, hh, heapPop]
      · simp [waitAndPop, queueShutdown, hh, heapPop]

/-- C5 witness: both branches of the amended statement at concrete queues. -/
theorem queue_shutdown_drains_witness :
    (tryPop (queueShutdown { heap := [], shutdown := false })
        = (none, queueShutdown { heap := [], shutdown := false }) ∧
      waitAndPop (queueShutdown { heap := [], shutdown := false })
        = (none, queueShutdown { heap := [], shutdown := false })) ∧
      ((tryPop (queueShutdown { heap := [c5Entry], shutdown := false })).1.isSome = true ∧
        (waitAndPop (queueShutdown { heap := [c5Entry], shutdown := false })).1.isSome = true) :=
  ⟨(queue_shutdown_drains { heap := [], shutdown := false }).2.1 rfl,
    (queue_shutdown_drains { heap := [c5Entry], shutdown := false }).2.2 (by simp)⟩

/-! ## Claim C7: Fibonacci backoff -/

/-- C7: the repository's `FibonacciBackoffSeconds` snippet returns 6 for
the second consecutive error, while the documented sequence (TODO.md §8.2
prose, §16.1 table, and the spec) puts 3 at position 2; the snippet skips
the second 3. -/
theorem fib_backoff_second_retry_is_six :
    fibonacciBackoffSeconds 2 600 = 6 ∧ min (specFibSeq 2) 600 = 3 := by
  decide

/-! ## Claim C9: effective delay -/

/-- C9: `GetEffectiveDelay` returns the larger (stricter) of `crawl_delay`
and `request_rate` when both are set (non-negative), and the set one when
only one is set. -/
theorem effective_delay_stricter (r : RobotsRules) :
    (0 ≤ r.crawl_delay → 0 ≤ r.request_rate →
        getEffectiveDelay r = max r.crawl_delay r.request_rate) ∧
      (0 ≤ r.crawl_delay → r.request_rate < 0 → getEffectiveDelay r = r.crawl_delay) ∧
      (r.crawl_delay < 0 → 0 ≤ r.request_rate → getEffectiveDelay r = r.request_rate) := by
  unfold getEffectiveDelay
  refine ⟨?_, ?_, ?_⟩
  · intro h1 h2
    rw [if_pos ⟨h1, h2⟩]
  · intro h1 h2
    rw [if_neg (by rintro ⟨-, hr⟩; linarith), if_pos h1]
  · intro h1 h2
    rw [if_neg (by rintro ⟨hc, -⟩; linarith), if_neg (by intro hc; linarith), if_pos h2]

/-- C9 witness: both set picks the larger; single set picks the set one. -/
theorem effective_delay_stricter_witness :
    getEffectiveDelay { crawl_delay := 2, request_rate := 3 } = max 2 3 ∧
      getEffectiveDelay { crawl_delay := 2, request_rate := -1 } = 2 ∧
      getEffectiveDelay { crawl_delay := -1, request_rate := 3 } = 3 :=
  ⟨(effective_delay_stricter { crawl_delay := 2, request_rate := 3 }).1
      (by norm_num) (by norm_num),
    (effective_delay_stricter { crawl_delay := 2, request_rate := -1 }).2.1
      (by norm_num) (by norm_num),
    (effective_delay_stricter { crawl_delay := -1, request_rate := 3 }).2.2
      (by norm_num) (by norm_num)⟩

/-! ## Parser block-structure lemmas (claims C4 and C10) -/

theorem startsWithCI_true_cons {t : Str} {d : Char} {k : Str}
    (h : startsWithCI t (d :: k) = true) :
    ∃ c rest, t = c :: rest ∧ toLowerC c = toLowerC d ∧ startsWithCI rest k = true := by
  cases t with
  | nil => simp [startsWithCI] at h
  | cons c rest =>
    simp only [startsWithCI, Bool.and_eq_true, decide_eq_true_eq] at h
    exact ⟨c, rest, rfl, h.1, h.2⟩

theorem trimStr_line_fixed {k a : Str} (hk : k ≠ [])
    (hkh : ∀ c, k.head? = some c → isSpaceC c = false)
    (ha1 : trimStr a = a) (ha2 : a ≠ []) : trimStr (k ++ a) = k ++ a := by
  apply trimStr_eq_self_of_ends
  · intro c hc
    cases k with
    | nil => exact absurd rfl hk
    | cons c0 t =>
      simp only [List.cons_append, List.head?_cons, Option.some.injEq] at hc
      subst hc
      exact hkh _ rfl
  · intro c hc
    rw [List.getLast?_append_of_ne_nil k ha2] at hc
    exact trimStr_getLast_not_space ha1 ha2 c hc

/-- `parseLine` on a `User-agent: <name>` line, for a trimmed, non-empty,
already-lowercase name. -/
theorem parseLine_ua (st : ParseState) (a : Str)
    (ha1 : trimStr a = a) (ha2 : toLowerStr a = a) (ha3 : a ≠ []) :
    parseLine st ("User-agent: ".toList ++ a) =
      { data := { st.data with user_agents := uaInsertIfAbsent st.data.user_agents a },
        cur := some a } := by
  have hsplit : ("User-agent: ".toList ++ a : Str) = "User-agent:".toList ++ (' ' :: a) := rfl
  have hfix : trimStr ("User-agent: ".toList ++ a) = "User-agent: ".toList ++ a :=
    trimStr_line_fixed (by simp) (by intro c hc; simp at hc; subst hc; rfl) ha1 ha3
  have hne : ¬(("User-agent: ".toList ++ a : Str) = [] ∨
      ("User-agent: ".toList ++ a : Str).head? = some '#') := by
    have hcons : ("User-agent: ".toList ++ a : Str) = 'U' :: ("ser-agent: ".toList ++ a) := rfl
    rw [hcons]
    simp
  have hsw : startsWithCI ("User-agent: ".toList ++ a) uaDirKey = true := by
    rw [hsplit]
    exact startsWithCI_append _ (by decide)
  have hval : toLowerStr (extractValue ("User-agent: ".toList ++ a) 11) = a := by
    unfold extractValue
    rw [hsplit]
    have h11 : ("User-agent:".toList : Str).length = 11 := rfl
    rw [← h11, List.drop_left, trimStr_cons_space, ha1, ha2]
  simp only [parseLine]
  rw [hfix, if_neg hne, if_pos hsw, hval, if_neg ha3]

/-- `parseLine` on a `Disallow: <path>` line when a block is open, for a
trimmed non-empty path. -/
theorem parseLine_disallow (st : ParseState) (x p : Str) (hcur : st.cur = some x)
    (hp1 : trimStr p = p) (hp2 : p ≠ []) :
    parseLine st ("Disallow: ".toList ++ p) =
      { st with data := { st.data with
          user_agents := uaUpdate st.data.user_agents x
            (fun r => { r with disallow := r.disallow ++ [p] }) } } := by
  have hsplit : ("Disallow: ".toList ++ p : Str) = "Disallow:".toList ++ (' ' :: p) := rfl
  have hcons : ("Disallow: ".toList ++ p : Str) = 'D' :: ("isallow: ".toList ++ p) := rfl
  have hfix : trimStr ("Disallow: ".toList ++ p) = "Disallow: ".toList ++ p :=
    trimStr_line_fixed (by simp) (by intro c hc; simp at hc; subst hc; rfl) hp1 hp2
  have hne : ¬(("Disallow: ".toList ++ p : Str) = [] ∨
      ("Disallow: ".toList ++ p : Str).head? = some '#') := by
    rw [hcons]
    simp
  have hnua : startsWithCI ("Disallow: ".toList ++ p) uaDirKey = false := by
    rw [hcons]
    exact startsWithCI_head_false _ _ (by decide)
  have hncd : startsWithCI ("Disallow: ".toList ++ p) crawlDelayKey = false := by
    rw [hcons]
    exact startsWithCI_head_false _ _ (by decide)
  have hnrr : startsWithCI ("Disallow: ".toList ++ p) requestRateKey = false := by
    rw [hcons]
    exact startsWithCI_head_false _ _ (by decide)
  have hsw : startsWithCI ("Disallow: ".toList ++ p) disallowKey = true := by
    rw [hsplit]
    exact startsWithCI_append _ (by decide)
  have hval : extractValue ("Disallow: ".toList ++ p) 9 = p := by
    unfold extractValue
    rw [hsplit]
    have h9 : ("Disallow:".toList : Str).length = 9 := rfl
    rw [← h9, List.drop_left, trimStr_cons_space, hp1]
  simp only [parseLine]
  rw [hfix, if_neg hne, if_neg (by rw [hnua]; simp), if_neg (by rw [hncd]; simp),
    if_neg (by rw [hnrr]; simp), if_pos hsw, hcur, hval]
  simp [hp2]

/-- `parseLine` on a `Sitemap: <url>` line, for a trimmed non-empty URL:
collected into the global sitemap list regardless of `current_rules`. -/
theorem parseLine_sitemap (st : ParseState) (u : Str)
    (hu1 : trimStr u = u) (hu2 : u ≠ []) :
    parseLine st ("Sitemap: ".toList ++ u) =
      { st with data := { st.data with sitemaps := st.data.sitemaps ++ [u] } } := by
  have hsplit : ("Sitemap: ".toList ++ u : Str) = "Sitemap:".toList ++ (' ' :: u) := rfl
  have hcons : ("Sitemap: ".toList ++ u : Str) = 'S' :: ("itemap: ".toList ++ u) := rfl
  have hfix : trimStr ("Sitemap: ".toList ++ u) = "Sitemap: ".toList ++ u :=
    trimStr_line_fixed (by simp) (by intro c hc; simp at hc; subst hc; rfl) hu1 hu2
  have hne : ¬(("Sitemap: ".toList ++ u : Str) = [] ∨
      ("Sitemap: ".toList ++ u : Str).head? = some '#') := by
    rw [hcons]
    simp
  have hnua : startsWithCI ("Sitemap: ".toList ++ u) uaDirKey = false := by
    rw [hcons]
    exact startsWithCI_head_false _ _ (by decide)
  have hncd : startsWithCI ("Sitemap: ".toList ++ u) crawlDelayKey = false := by
    rw [hcons]
    exact startsWithCI_head_false _ _ (by decide)
  have hnrr : startsWithCI ("Sitemap: ".toList ++ u) requestRateKey = false := by
    rw [hcons]
    exact startsWithCI_head_false _ _ (by decide)
  have hndi : startsWithCI ("Sitemap: ".toList ++ u) disallowKey = false := by
    rw [hcons]
    exact startsWithCI_head_false _ _ (by decide)
  have hnal : startsWithCI ("Sitemap: ".toList ++ u) allowDirKey = false := by
    rw [hcons]
    exact startsWithCI_head_false _ _ (by decide)
  have hsw : startsWithCI ("Sitemap: ".toList ++ u) sitemapKey = true := by
    rw [hsplit]
    exact startsWithCI_append _ (by decide)
  have hval : extractValue ("Sitemap: ".toList ++ u) 8 = u := by
    unfold extractValue
    rw [hsplit]
    have h8 : ("Sitemap:".toList : Str).length = 8 := rfl
    rw [← h8, List.drop_left, trimStr_cons_space, hu1]
  simp only [parseLine]
  rw [hfix, if_neg hne, if_neg (by rw [hnua]; simp), if_neg (by rw [hncd]; simp),
    if_neg (by rw [hnrr]; simp), if_neg (by rw [hndi]; simp), if_neg (by rw [hnal]; simp),
    if_pos hsw, hval, if_neg hu2]

/-- With `current_rules` null, a rule-directive line leaves the parser
state unchanged: the directive is silently dropped. -/
theorem parseLine_rule_nullcur (st : ParseState) (l : Str) (hcur : st.cur = none)
    (hl : isRuleDirectiveLine l = true) : parseLine st l = st := by
  unfold isRuleDirectiveLine at hl
  simp only [Bool.or_eq_true] at hl
  have hKua : uaDirKey = 'u' :: "ser-agent:".toList := rfl
  have hK1 : crawlDelayKey = 'c' :: "rawl-delay:".toList := rfl
  have hK2 : requestRateKey = 'r' :: "equest-rate:".toList := rfl
  have hK3 : disallowKey = 'd' :: "isallow:".toList := rfl
  have hK4 : allowDirKey = 'a' :: "llow:".toList := rfl
  rcases hl with ((h | h) | h) | h
  · have h' := h
    rw [hK1] at h'
    obtain ⟨c, rest, ht, hlow, -⟩ := startsWithCI_true_cons h'
    rw [show toLowerC 'c' = 'c' from rfl] at hlow
    have hne : ¬(trimStr l = [] ∨ (trimStr l).head? = some '#') := by
      rw [ht]
      push_neg
      refine ⟨by simp, ?_⟩
      simp only [List.head?_cons, ne_eq, Option.some.injEq]
      intro hc
      rw [hc] at hlow
      exact absurd hlow (by decide)
    have hnua : startsWithCI (trimStr l) uaDirKey = false := by
      rw [ht, hKua]
      refine startsWithCI_head_false _ _ ?_
      rw [hlow]
      decide
    simp only [parseLine]
    rw [if_neg hne, if_neg (by rw [hnua]; simp), if_pos h, hcur]
  · have h' := h
    rw [hK2] at h'
    obtain ⟨c, rest, ht, hlow, -⟩ := startsWithCI_true_cons h'
    rw [show toLowerC 'r' = 'r' from rfl] at hlow
    have hne : ¬(trimStr l = [] ∨ (trimStr l).head? = some '#') := by
      rw [ht]
      push_neg
      refine ⟨by simp, ?_⟩
      simp only [List.head?_cons, ne_eq, Option.some.injEq]
      intro hc
      rw [hc] at hlow
      exact absurd hlow (by decide)
    have hnua : startsWithCI (trimStr l) uaDirKey = false := by
      rw [ht, hKua]
      refine startsWithCI_head_false _ _ ?_
      rw [hlow]
      decide
    have hncd : startsWithCI (trimStr l) crawlDelayKey = false := by
      rw [ht, hK1]
      refine startsWithCI_head_false _ _ ?_
      rw [hlow]
      decide
    simp only [parseLine]
    rw [if_neg hne, if_neg (by rw [hnua]; simp), if_neg (by rw [hncd]; simp), if_pos h, hcur]
  · have h' := h
    rw [hK3] at h'
    obtain ⟨c, rest, ht, hlow, -⟩ := startsWithCI_true_cons h'
    rw [show toLowerC 'd' = 'd' from rfl] at hlow
    have hne : ¬(trimStr l = [] ∨ (trimStr l).head? = some '#') := by
      rw [ht]
      push_neg
      refine ⟨by simp, ?_⟩
      simp only [List.head?_cons, ne_eq, Option.some.injEq]
      intro hc
      rw [hc] at hlow
      exact absurd hlow (by decide)
    have hnua : startsWithCI (trimStr l) uaDirKey = false := by
      rw [ht, hKua]
      refine startsWithCI_head_false _ _ ?_
      rw [hlow]
      decide
    have hncd : startsWithCI (trimStr l) crawlDelayKey = false := by
      rw [ht, hK1]
      refine startsWithCI_head_false _ _ ?_
      rw [hlow]
      decide
    have hnrr : startsWithCI (trimStr l) requestRateKey = false := by
      rw [ht, hK2]
      refine startsWithCI_head_false _ _ ?_
      rw [hlow]
      decide
    simp only [parseLine]
    rw [if_neg hne, if_neg (by rw [hnua]; simp), if_neg (by rw [hncd]; simp),
      if_neg (by rw [hnrr]; simp), if_pos h, hcur]
  · have h' := h
    rw [hK4] at h'
    obtain ⟨c, rest, ht, hlow, -⟩ := startsWithCI_true_cons h'
    rw [show toLowerC 'a' = 'a' from rfl] at hlow
    have hne : ¬(trimStr l = [] ∨ (trimStr l).head? = some '#') := by
      rw [ht]
      push_neg
      refine ⟨by simp, ?_⟩
      simp only [List.head?_cons, ne_eq, Option.some.injEq]
      intro hc
      rw [hc] at hlow
      exact absurd hlow (by decide)
    have hnua : startsWithCI (trimStr l) uaDirKey = false := by
      rw [ht, hKua]
      refine startsWithCI_head_false _ _ ?_
      rw [hlow]
      decide
    have hncd : startsWithCI (trimStr l) crawlDelayKey = false := by
      rw [ht, hK1]
      refine startsWithCI_head_false _ _ ?_
      rw [hlow]
      decide
    have hnrr : startsWithCI (trimStr l) requestRateKey = false := by
      rw [ht, hK2]
      refine startsWithCI_head_false _ _ ?_
      rw [hlow]
      decide
    have hndi : startsWithCI (trimStr l) disallowKey = false := by
      rw [ht, hK3]
      refine startsWithCI_head_false _ _ ?_
      rw [hlow]
      decide
    simp only [parseLine]
    rw [if_neg hne, if_neg (by rw [hnua]; simp), if_neg (by rw [hncd]; simp),
      if_neg (by rw [hnrr]; simp), if_neg (by rw [hndi]; simp), if_pos h, hcur]

theorem foldl_parseLine_rule_skip (R P : List Str) (st : ParseState)
    (hcur : st.cur = none) (hP : ∀ l ∈ P, isRuleDirectiveLine l = true) :
    List.foldl parseLine st (P ++ R) = List.foldl parseLine st R := by
  induction P with
  | nil => rfl
  | cons l P ih =>
    simp only [List.cons_append, List.foldl_cons]
    rw [parseLine_rule_nullcur st l hcur (hP l (by simp))]
    exact ih (fun x hx => hP x (by simp [hx]))

/-- `parseLine` touches the global sitemap list only by appending: running
it from a state with sitemap prefix `sm` equals running it from the same
state with empty sitemaps and prepending `sm`. -/
theorem parseLine_sm_shift (ua : List (Str × RobotsRules)) (sm : List Str)
    (cur : Option Str) (l : Str) :
    parseLine ⟨⟨ua, sm⟩, cur⟩ l =
      { data := { user_agents := (parseLine ⟨⟨ua, []⟩, cur⟩ l).data.user_agents,
                  sitemaps := sm ++ (parseLine ⟨⟨ua, []⟩, cur⟩ l).data.sitemaps },
        cur := (parseLine ⟨⟨ua, []⟩, cur⟩ l).cur } := by
  by_cases h0 : trimStr l = [] ∨ (trimStr l).head? = some '#'
  · simp only [parseLine]
    rw [if_pos h0, if_pos h0]
    simp
  · by_cases h1 : startsWithCI (trimStr l) uaDirKey = true
    · by_cases h1e : toLowerStr (extractValue (trimStr l) 11) = []
      · simp only [parseLine]
        rw [if_neg h0, if_neg h0, if_pos h1, if_pos h1, if_pos h1e, if_pos h1e]
        simp
      · simp only [parseLine]
        rw [if_neg h0, if_neg h0, if_pos h1, if_pos h1, if_neg h1e, if_neg h1e]
        simp
    · by_cases h2 : startsWithCI (trimStr l) crawlDelayKey = true
      · simp only [parseLine]
        rw [if_neg h0, if_neg h0, if_neg h1, if_neg h1, if_pos h2, if_pos h2]
        cases cur with
        | none => simp
        | some k =>
          cases hs : stodModel (extractValue (trimStr l) 12) with
          | none => simp [hs]
          | some d =>
            by_cases hd : (0 : ℚ) ≤ d
            · simp [hs, hd]
            · simp [hs, hd]
      · by_cases h3 : startsWithCI (trimStr l) requestRateKey = true
        · simp only [parseLine]
          rw [if_neg h0, if_neg h0, if_neg h1, if_neg h1, if_neg h2, if_neg h2,
            if_pos h3, if_pos h3]
          cases cur with
          | none => simp
          | some k =>
            cases hf : (extractValue (trimStr l) 13).findIdx? (· = '/') with
            | none => simp [hf]
            | some slash =>
              cases hn : stodModel ((extractValue (trimStr l) 13).take slash) with
              | none => simp [hf, hn]
              | some n =>
                cases hm : stodModel ((extractValue (trimStr l) 13).drop (slash + 1)) with
                | none => simp [hf, hn, hm]
                | some m =>
                  by_cases hnm : (0 : ℚ) < n ∧ (0 : ℚ) < m
                  · simp [hf, hn, hm, hnm]
                  · simp [hf, hn, hm, hnm]
        · by_cases h4 : startsWithCI (trimStr l) disallowKey = true
          · simp only [parseLine]
            rw [if_neg h0, if_neg h0, if_neg h1, if_neg h1, if_neg h2, if_neg h2,
              if_neg h3, if_neg h3, if_pos h4, if_pos h4]
            cases cur with
            | none => simp
            | some k =>
              by_cases hp : extractValue (trimStr l) 9 = []
              · simp [hp]
              · simp [hp]
          · by_cases h5 : startsWithCI (trimStr l) allowDirKey = true
            · simp only [parseLine]
              rw [if_neg h0, if_neg h0, if_neg h1, if_neg h1, if_neg h2, if_neg h2,
                if_neg h3, if_neg h3, if_neg h4, if_neg h4, if_pos h5, if_pos h5]
              cases cur with
              | none => simp
              | some k =>
                by_cases hp : extractValue (trimStr l) 6 = []
                · simp [hp]
                · simp [hp]
            · by_cases h6 : startsWithCI (trimStr l) sitemapKey = true
              · simp only [parseLine]
                rw [if_neg h0, if_neg h0, if_neg h1, if_neg h1, if_neg h2, if_neg h2,
                  if_neg h3, if_neg h3, if_neg h4, if_neg h4, if_neg h5, if_neg h5,
                  if_pos h6, if_pos h6]
                by_cases hu : extractValue (trimStr l) 8 = []
                · simp [hu]
                · simp [hu]
              · simp only [parseLine]
                rw [if_neg h0, if_neg h0, if_neg h1, if_neg h1, if_neg h2, if_neg h2,
                  if_neg h3, if_neg h3, if_neg h4, if_neg h4, if_neg h5, if_neg h5,
                  if_neg h6, if_neg h6]
                simp

theorem foldl_parseLine_sm_shift (R : List Str) :
    ∀ (ua : List (Str × RobotsRules)) (sm : List Str) (cur : Option Str),
      (List.foldl parseLine ⟨⟨ua, sm⟩, cur⟩ R).data.user_agents
          = (List.foldl parseLine ⟨⟨ua, []⟩, cur⟩ R).data.user_agents ∧
        (List.foldl parseLine ⟨⟨ua, sm⟩, cur⟩ R).data.sitemaps
          = sm ++ (List.foldl parseLine ⟨⟨ua, []⟩, cur⟩ R).data.sitemaps ∧
        (List.foldl parseLine ⟨⟨ua, sm⟩, cur⟩ R).cur
          = (List.foldl parseLine ⟨⟨ua, []⟩, cur⟩ R).cur := by
  induction R with
  | nil =>
    intro ua sm cur
    exact ⟨rfl, by simp, rfl⟩
  | cons l R ih =>
    intro ua sm cur
    simp only [List.foldl_cons]
    rw [parseLine_sm_shift ua sm cur l]
    have heta : parseLine ⟨⟨ua, []⟩, cur⟩ l =
        ⟨⟨(parseLine ⟨⟨ua, []⟩, cur⟩ l).data.user_agents,
          (parseLine ⟨⟨ua, []⟩, cur⟩ l).data.sitemaps⟩,
          (parseLine ⟨⟨ua, []⟩, cur⟩ l).cur⟩ := rfl
    rw [heta]
    obtain ⟨h1, h2, h3⟩ := ih (parseLine ⟨⟨ua, []⟩, cur⟩ l).data.user_agents
      (sm ++ (parseLine ⟨⟨ua, []⟩, cur⟩ l).data.sitemaps) (parseLine ⟨⟨ua, []⟩, cur⟩ l).cur
    obtain ⟨g1, g2, g3⟩ := ih (parseLine ⟨⟨ua, []⟩, cur⟩ l).data.user_agents
      (parseLine ⟨⟨ua, []⟩, cur⟩ l).data.sitemaps (parseLine ⟨⟨ua, []⟩, cur⟩ l).cur
    refine ⟨?_, ?_, ?_⟩
    · rw [h1, g1]
    · rw [h2, g2, List.append_assoc]
    · rw [h3, g3]

/-! ## Claim C10: directives before the first `User-agent` line -/

/-- C10: any `Allow`, `Disallow`, `Crawl-delay` or `Request-rate` directive
lines before the first `User-agent` line are silently dropped — the parse
result is the same as if they were absent — while a `Sitemap` line in the
same position is still collected into the global sitemap list. -/
theorem parse_pre_ua_directives_dropped (P R : List Str) (u : Str)
    (hP : ∀ l ∈ P, isRuleDirectiveLine l = true)
    (hu1 : trimStr u = u) (hu2 : u ≠ []) :
    parseRobotsLines (P ++ R) = parseRobotsLines R ∧
      (parseRobotsLines (("Sitemap: ".toList ++ u) :: R)).user_agents
          = (parseRobotsLines R).user_agents ∧
      (parseRobotsLines (("Sitemap: ".toList ++ u) :: R)).sitemaps
          = u :: (parseRobotsLines R).sitemaps := by
  refine ⟨?_, ?_, ?_⟩
  · unfold parseRobotsLines
    rw [foldl_parseLine_rule_skip R P _ rfl hP]
  · unfold parseRobotsLines
    simp only [List.foldl_cons]
    rw [parseLine_sitemap _ u hu1 hu2]
    have := (foldl_parseLine_sm_shift R [] [u] none).1
    simpa [emptyData] using this
  · unfold parseRobotsLines
    simp only [List.foldl_cons]
    rw [parseLine_sitemap _ u hu1 hu2]
    have := (foldl_parseLine_sm_shift R [] [u] none).2.1
    simpa [emptyData] using this

/-- C10 witness: two dropped rule directives and one collected sitemap line
ahead of a `User-agent: *` block. -/
theorem parse_pre_ua_directives_dropped_witness :
    parseRobotsLines
        (["Disallow: /x".toList, "Crawl-delay: 5".toList] ++
          ["User-agent: *".toList, "Disallow: /z".toList])
      = parseRobotsLines ["User-agent: *".toList, "Disallow: /z".toList] ∧
      (parseRobotsLines (("Sitemap: ".toList ++ "http://s".toList) ::
            ["User-agent: *".toList, "Disallow: /z".toList])).sitemaps
        = "http://s".toList ::
            (parseRobotsLines ["User-agent: *".toList, "Disallow: /z".toList]).sitemaps :=
  ⟨(parse_pre_ua_directives_dropped ["Disallow: /x".toList, "Crawl-delay: 5".toList]
      ["User-agent: *".toList, "Disallow: /z".toList] "http://s".toList
      (by decide) (by decide) (by decide)).1,
    (parse_pre_ua_directives_dropped ["Disallow: /x".toList, "Crawl-delay: 5".toList]
      ["User-agent: *".toList, "Disallow: /z".toList] "http://s".toList
      (by decide) (by decide) (by decide)).2.2⟩

/-! ## Claim C4: consecutive `User-agent` lines -/

/-- C4 counterexample: in
`User-agent: a / User-agent: b / Disallow: /x`, the rule is attributed only
to `b`; agent `a` is left with empty rules, not with the block's rules. -/
theorem parse_multi_ua_no_accumulation :
    uaFind c4Data.user_agents "a".toList = some emptyRules ∧
      uaFind c4Data.user_agents "b".toList
        = some { emptyRules with disallow := ["/x".toList] } ∧
      emptyRules.disallow = [] ∧ (["/x".toList] : List Str) ≠ [] := by
  decide

/-- C4 (amended): in a block opened by several consecutive `User-agent`
lines, subsequent rules are attributed only to the agent named last; each
earlier listed agent keeps a freshly created empty rule set (stated for a
block of two agents followed by a `Disallow` rule). -/
theorem parse_multi_ua_last_only (a b p : Str)
    (ha1 : trimStr a = a) (ha2 : toLowerStr a = a) (ha3 : a ≠ [])
    (hb1 : trimStr b = b) (hb2 : toLowerStr b = b) (hb3 : b ≠ [])
    (hab : a ≠ b) (hp1 : trimStr p = p) (hp2 : p ≠ []) :
    uaFind (parseRobotsLines ["User-agent: ".toList ++ a, "User-agent: ".toList ++ b,
        "Disallow: ".toList ++ p]).user_agents a = some emptyRules ∧
      uaFind (parseRobotsLines ["User-agent: ".toList ++ a, "User-agent: ".toList ++ b,
          "Disallow: ".toList ++ p]).user_agents b
        = some { emptyRules with disallow := [p] } := by
  unfold parseRobotsLines
  simp only [List.foldl_cons, List.foldl_nil]
  rw [parseLine_ua _ a ha1 ha2 ha3, parseLine_ua _ b hb1 hb2 hb3,
    parseLine_disallow _ b p rfl hp1 hp2]
  have h1 : uaInsertIfAbsent emptyData.user_agents a = [(a, emptyRules)] := by
    simp [uaInsertIfAbsent, emptyData]
  have h2 : uaInsertIfAbsent [(a, emptyRules)] b = [(a, emptyRules), (b, emptyRules)] := by
    simp [uaInsertIfAbsent, List.find?, hab]
  simp only [h1, h2]
  constructor
  · simp [uaFind, uaUpdate, List.find?, hab]
  · simp [uaFind, uaUpdate, List.find?, hab, Ne.symm hab, emptyRules]

/-- C4 witness: the amended attribution at a concrete two-agent block. -/
theorem parse_multi_ua_last_only_witness :
    uaFind (parseRobotsLines ["User-agent: ".toList ++ "alpha".toList,
        "User-agent: ".toList ++ "beta".toList,
        "Disallow: ".toList ++ "/x".toList]).user_agents "alpha".toList
      = some emptyRules ∧
      uaFind (parseRobotsLines ["User-agent: ".toList ++ "alpha".toList,
          "User-agent: ".toList ++ "beta".toList,
          "Disallow: ".toList ++ "/x".toList]).user_agents "beta".toList
        = some { emptyRules with disallow := ["/x".toList] } :=
  parse_multi_ua_last_only "alpha".toList "beta".toList "/x".toList
    (by decide) (by decide) (by decide) (by decide) (by decide) (by decide)
    (by decide) (by decide) (by decide)

/-! ## Claim C8: sitemap field trimming -/

theorem head_dropWhile_not {p : Char → Bool} {l : Str} {c : Char}
    (h : (l.dropWhile p).head? = some c) : p c = false := by
  induction l with
  | nil => simp [List.dropWhile] at h
  | cons a t ih =>
    rw [List.dropWhile_cons] at h
    split at h
    · exact ih h
    · simp only [List.head?_cons, Option.some.injEq] at h
      subst h
      rename_i hp
      simpa using hp

theorem rdrop_drop_eq_self_of_ends {p : Char → Bool} {l : Str}
    (h1 : ∀ c, l.head? = some c → p c = false)
    (h2 : ∀ c, l.getLast? = some c → p c = false) :
    List.rdropWhile p (List.dropWhile p l) = l := by
  have hd : List.dropWhile p l = l := by
    rw [List.dropWhile_eq_self_iff]
    intro hl
    have : l.head? = some (l.get ⟨0, hl⟩) := by
      cases l with
      | nil => simp at hl
      | cons a t => simp
    simpa using h1 _ this
  rw [hd, List.rdropWhile_eq_self_iff]
  intro hl
  have : l.getLast? = some (l.getLast hl) := List.getLast?_eq_getLast_of_ne_nil hl
  simpa using h2 _ this

theorem sitemapTrim_eq (s : Str) :
    sitemapTrim s =
      if s.all isWs4 then s else List.rdropWhile isWs4 (List.dropWhile isWs4 s) := by
  simp [sitemapTrim, List.rdropWhile]

/-- The core trim is a fixed point of `sitemapTrim`, and applying the core
trim to a string that has a non-whitespace character yields a string it
leaves unchanged. -/
theorem sitemapTrim_core_fixed {s : Str} (hall : ¬s.all isWs4 = true) :
    List.rdropWhile isWs4 (List.dropWhile isWs4
        (List.rdropWhile isWs4 (List.dropWhile isWs4 s)))
      = List.rdropWhile isWs4 (List.dropWhile isWs4 s) := by
  have hdne : List.dropWhile isWs4 s ≠ [] := by
    intro hc
    rw [List.dropWhile_eq_nil_iff] at hc
    exact hall (by rw [List.all_eq_true]; exact fun x hx => hc x hx)
  obtain ⟨c0, d', hd⟩ : ∃ c0 d', List.dropWhile isWs4 s = c0 :: d' := by
    cases hcase : List.dropWhile isWs4 s with
    | nil => exact absurd hcase hdne
    | cons a t => exact ⟨a, t, rfl⟩
  have hc0 : isWs4 c0 = false := head_dropWhile_not (by rw [hd]; rfl)
  have htne : List.rdropWhile isWs4 (List.dropWhile isWs4 s) ≠ [] := by
    intro hc
    rw [List.rdropWhile_eq_nil_iff] at hc
    have := hc c0 (by rw [hd]; simp)
    rw [this] at hc0
    cases hc0
  apply rdrop_drop_eq_self_of_ends
  · intro c hc
    obtain ⟨srest, hsr⟩ := List.rdropWhile_prefix isWs4 (List.dropWhile isWs4 s)
    have hh : (List.rdropWhile isWs4 (List.dropWhile isWs4 s)).head?
        = (List.dropWhile isWs4 s).head? := by
      conv_rhs => rw [← hsr]
      cases hcase : List.rdropWhile isWs4 (List.dropWhile isWs4 s) with
      | nil => exact absurd hcase htne
      | cons a t => simp [hcase]
    rw [hh, hd] at hc
    simp only [List.head?_cons, Option.some.injEq] at hc
    subst hc
    exact hc0
  · intro c hc
    rw [List.getLast?_eq_getLast_of_ne_nil htne] at hc
    simp only [Option.some.injEq] at hc
    subst hc
    have := List.rdropWhile_last_not isWs4 (List.dropWhile isWs4 s) htne
    simpa using this

/-- C8 counterexample: parsing
`<url><loc>u</loc><lastmod> x </lastmod></url>` returns the `lastmod`
value `" x "` with its surrounding whitespace intact, so not all four
fields are whitespace-trimmed. -/
theorem sitemap_lastmod_untrimmed :
    (sitemapParse c8Xml).urls.map (fun e => e.lastmod) = [" x ".toList] ∧
      sitemapTrim " x ".toList ≠ " x ".toList := by
  decide

/-- C8 (amended): only the `loc` field is whitespace-trimmed (when it has a
non-whitespace character; a whitespace-only `loc` is kept verbatim, and an
empty one suppresses the entry); `lastmod`, `changefreq` and `priority` are
returned verbatim as extracted. -/
theorem sitemap_loc_trimmed_only (xml : Str) :
    ∀ e ∈ (sitemapParse xml).urls,
      e.loc ≠ [] ∧ sitemapTrim e.loc = e.loc ∧
        (e.loc.all isWs4 = false →
          List.rdropWhile isWs4 (List.dropWhile isWs4 e.loc) = e.loc) := by
  intro e he
  unfold sitemapParse at he
  split at he
  · simp at he
  · simp only [List.mem_filterMap] at he
    obtain ⟨block, hb, hf⟩ := he
    split at hf
    · cases hf
    · rename_i hz
      split at hf
      · cases hf
      · rename_i hne2
        obtain rfl := Option.some.inj hf
        simp only at hne2 ⊢
        refine ⟨hne2, ?_, ?_⟩
        · unfold locAdjust
          by_cases hall : (extractTagContent block "loc".toList 0).1.all isWs4 = true
          · have hinner : sitemapTrim (extractTagContent block "loc".toList 0).1
                = (extractTagContent block "loc".toList 0).1 := by
              rw [sitemapTrim_eq, if_pos hall]
            rw [hinner, hinner]
          · have hinner : sitemapTrim (extractTagContent block "loc".toList 0).1
                = List.rdropWhile isWs4
                    (List.dropWhile isWs4 (extractTagContent block "loc".toList 0).1) := by
              rw [sitemapTrim_eq, if_neg hall]
            rw [hinner, sitemapTrim_eq]
            split
            · rfl
            · exact sitemapTrim_core_fixed hall
        · intro hfalse
          unfold locAdjust at hfalse ⊢
          by_cases hall : (extractTagContent block "loc".toList 0).1.all isWs4 = true
          · have hinner : sitemapTrim (extractTagContent block "loc".toList 0).1
                = (extractTagContent block "loc".toList 0).1 := by
              rw [sitemapTrim_eq, if_pos hall]
            rw [hinner] at hfalse
            rw [hall] at hfalse
            cases hfalse
          · have hinner : sitemapTrim (extractTagContent block "loc".toList 0).1
                = List.rdropWhile isWs4
                    (List.dropWhile isWs4 (extractTagContent block "loc".toList 0).1) := by
              rw [sitemapTrim_eq, if_neg hall]
            rw [hinner]
            exact sitemapTrim_core_fixed hall

/-- C8 witness: the amended statement applied to the counterexample
document, whose single entry has `loc = "u"`. -/
theorem sitemap_loc_trimmed_only_witness :
    (⟨"u".toList, " x ".toList, [], []⟩ : SitemapEntry).loc ≠ [] ∧
      List.rdropWhile isWs4 (List.dropWhile isWs4
          (⟨"u".toList, " x ".toList, [], []⟩ : SitemapEntry).loc)
        = (⟨"u".toList, " x ".toList, [], []⟩ : SitemapEntry).loc :=
  ⟨(sitemap_loc_trimmed_only c8Xml ⟨"u".toList, " x ".toList, [], []⟩ (by decide)).1,
    (sitemap_loc_trimmed_only c8Xml ⟨"u".toList, " x ".toList, [], []⟩
        (by decide)).2.2 (by decide)⟩

/-! ## Heap lemmas (claim C6) -/

theorem hswap_length (l : List UrlQueueEntry) (i j : Nat) :
    (hswap l i j).length = l.length := by
  simp [hswap]

theorem getD_append_left {l m : List UrlQueueEntry} {k : Nat} (h : k < l.length) :
    (l ++ m).getD k default = l.getD k default := by
  simp [List.getD, List.getElem?_append, h]

theorem getD_append_last (l : List UrlQueueEntry) (e : UrlQueueEntry) :
    (l ++ [e]).getD l.length default = e := by
  simp [List.getD]

theorem getD_set_self {l : List UrlQueueEntry} {i : Nat} (x : UrlQueueEntry)
    (h : i < l.length) : (l.set i x).getD i default = x := by
  simp [List.getD, List.getElem?_set_self, h]

theorem getD_set_ne {l : List UrlQueueEntry} {i k : Nat} (x : UrlQueueEntry)
    (h : k ≠ i) : (l.set i x).getD k default = l.getD k default := by
  simp [List.getD, List.getElem?_set_ne (Ne.symm h)]

theorem getD_hswap_i {l : List UrlQueueEntry} {i j : Nat}
    (hi : i < l.length) (hj : j < l.length) :
    (hswap l i j).getD i default = l.getD j default := by
  unfold hswap
  by_cases hij : i = j
  · subst hij
    rw [getD_set_self _ (by simpa using hi)]
  · rw [getD_set_ne _ hij, getD_set_self _ hi]

theorem getD_hswap_j {l : List UrlQueueEntry} {i j : Nat} (hj : j < l.length) :
    (hswap l i j).getD j default = l.getD i default := by
  unfold hswap
  rw [getD_set_self _ (by simpa using hj)]

theorem getD_hswap_other {l : List UrlQueueEntry} {i j k : Nat}
    (hki : k ≠ i) (hkj : k ≠ j) :
    (hswap l i j).getD k default = l.getD k default := by
  unfold hswap
  rw [getD_set_ne _ hkj, getD_set_ne _ hki]

theorem count_set_plus (l : List UrlQueueEntry) (i : Nat) (x : UrlQueueEntry)
    (h : i < l.length) (a : UrlQueueEntry) :
    (l.set i x).count a + (if l.getD i default = a then 1 else 0)
      = l.count a + (if x = a then 1 else 0) := by
  have hget : l.getD i default = l.get ⟨i, h⟩ := by
    simp [List.getD, List.getElem?_eq_getElem h, List.get_eq_getElem]
  have hdecomp : l = l.take i ++ l.get ⟨i, h⟩ :: l.drop (i + 1) := by
    conv_lhs => rw [← List.take_append_drop i l]
    rw [List.drop_eq_getElem_cons h]
    simp [List.get_eq_getElem]
  rw [List.set_eq_take_cons_drop x h, hget]
  conv_rhs => rw [hdecomp]
  simp only [List.count_append, List.count_cons]
  by_cases h1 : l.get ⟨i, h⟩ = a <;> by_cases h2 : x = a <;>
    simp [h1, h2] <;> omega

theorem hswap_count (l : List UrlQueueEntry) (i j : Nat)
    (hi : i < l.length) (hj : j < l.length) (a : UrlQueueEntry) :
    (hswap l i j).count a = l.count a := by
  unfold hswap
  have h1 := count_set_plus (l.set i (l.getD j default)) j (l.getD i default)
    (by simpa using hj) a
  have h2 := count_set_plus l i (l.getD j default) hi a
  by_cases hij : i = j
  · subst hij
    rw [getD_set_self _ hi] at h1
    omega
  · rw [getD_set_ne _ (Ne.symm hij)] at h1
    omega

theorem hswap_perm (l : List UrlQueueEntry) (i j : Nat)
    (hi : i < l.length) (hj : j < l.length) : (hswap l i j).Perm l := by
  rw [List.perm_iff_count]
  intro a
  exact hswap_count l i j hi hj a

theorem siftUpAux_perm :
    ∀ (fuel : Nat) (l : List UrlQueueEntry) (i : Nat), i < l.length →
      (siftUpAux fuel l i).Perm l := by
  intro fuel
  induction fuel with
  | zero =>
    intro l i _
    exact List.Perm.refl l
  | succ fuel ih =>
    intro l i hi
    simp only [siftUpAux]
    by_cases h0 : i = 0
    · rw [if_pos h0]
    · rw [if_neg h0]
      by_cases hlt : ekey (l.getD i default) < ekey (l.getD ((i - 1) / 2) default)
      · rw [if_pos hlt]
        have hp : (i - 1) / 2 < l.length := by omega
        exact (ih (hswap l i ((i - 1) / 2)) ((i - 1) / 2)
          (by rw [hswap_length]; omega)).trans (hswap_perm l i ((i - 1) / 2) hi hp)
      · rw [if_neg hlt]

theorem siftDownAux_perm :
    ∀ (fuel : Nat) (l : List UrlQueueEntry) (i : Nat),
      (siftDownAux fuel l i).Perm l := by
  intro fuel
  induction fuel with
  | zero =>
    intro l i
    exact List.Perm.refl l
  | succ fuel ih =>
    intro l i
    simp only [siftDownAux]
    by_cases hm : pickChild l i = i
    · rw [if_pos hm]
    · rw [if_neg hm]
      obtain ⟨hgt, hlen⟩ := pickChild_ne_bounds hm
      exact (ih (hswap l i (pickChild l i)) (pickChild l i)).trans
        (hswap_perm l i (pickChild l i) (by omega) hlen)

theorem siftUpAux_heapInv :
    ∀ (fuel : Nat) (l : List UrlQueueEntry) (i : Nat),
      i < l.length → i + 1 ≤ fuel → suInv l i → heapInv (siftUpAux fuel l i) := by
  intro fuel
  induction fuel with
  | zero =>
    intro l i _ hf _
    omega
  | succ fuel ih =>
    intro l i hi _ hsu
    simp only [siftUpAux]
    by_cases h0 : i = 0
    · rw [if_pos h0]
      subst h0
      intro j hj hj0
      exact hsu.1 j hj hj0 (by omega)
    · rw [if_neg h0]
      by_cases hlt : ekey (l.getD i default) < ekey (l.getD ((i - 1) / 2) default)
      · rw [if_pos hlt]
        have hplen : (i - 1) / 2 < l.length := by omega
        apply ih (hswap l i ((i - 1) / 2)) ((i - 1) / 2)
        · rw [hswap_length]
          omega
        · omega
        · constructor
          · intro j hj hj0 hjp
            rw [hswap_length] at hj
            by_cases hji : j = i
            · subst hji
              have hpar : (j - 1) / 2 = (j - 1) / 2 := rfl
              rw [getD_hswap_j hplen, getD_hswap_i hi hplen]
              exact le_of_lt hlt
            · by_cases hpp : (j - 1) / 2 = (i - 1) / 2
              · rw [hpp, getD_hswap_j hplen,
                  getD_hswap_other hji (by omega : j ≠ (i - 1) / 2)]
                have hedge := hsu.1 j hj hj0 hji
                rw [hpp] at hedge
                exact le_trans (le_of_lt hlt) hedge
              · by_cases hpi : (j - 1) / 2 = i
                · rw [hpi, getD_hswap_i hi hplen,
                    getD_hswap_other hji (by omega : j ≠ (i - 1) / 2)]
                  have := hsu.2 (by omega) j hj hpi
                  exact this
                · rw [getD_hswap_other hpi hpp,
                    getD_hswap_other hji (by omega : j ≠ (i - 1) / 2)]
                  exact hsu.1 j hj hj0 hji
          · intro hp0 j hj hjpar
            rw [hswap_length] at hj
            have hppne_i : ((i - 1) / 2 - 1) / 2 ≠ i := by omega
            have hppne_p : ((i - 1) / 2 - 1) / 2 ≠ (i - 1) / 2 := by omega
            rw [getD_hswap_other hppne_i hppne_p]
            by_cases hji : j = i
            · subst hji
              rw [getD_hswap_i hi hplen]
              exact hsu.1 ((j - 1) / 2) (by omega) hp0 (by omega)
            · have hjp : j ≠ (i - 1) / 2 := by omega
              rw [getD_hswap_other hji hjp]
              have h1 := hsu.1 ((i - 1) / 2) (by omega) hp0 (by omega)
              have h2 := hsu.1 j hj (by omega) hji
              rw [hjpar] at h2
              exact le_trans h1 h2
      · rw [if_neg hlt]
        intro j hj hj0
        by_cases hji : j = i
        · subst hji
          exact Nat.le_of_not_lt hlt
        · exact hsu.1 j hj hj0 hji

theorem heapPush_heapInv {l : List UrlQueueEntry} {e : UrlQueueEntry}
    (h : heapInv l) : heapInv (heapPush l e) := by
  unfold heapPush siftUp
  apply siftUpAux_heapInv
  · simp
  · omega
  · constructor
    · intro j hj hj0 hjn
      simp only [List.length_append, List.length_cons, List.length_nil] at hj
      have hj' : j < l.length := by omega
      have hpar' : (j - 1) / 2 < l.length := by omega
      rw [getD_append_left hj', getD_append_left hpar']
      exact h j hj' hj0
    · intro hn0 j hj hjpar
      simp only [List.length_append, List.length_cons, List.length_nil] at hj
      omega

theorem heapPush_perm (l : List UrlQueueEntry) (e : UrlQueueEntry) :
    (heapPush l e).Perm (e :: l) := by
  unfold heapPush siftUp
  exact (siftUpAux_perm _ (l ++ [e]) l.length (by simp)).trans
    (List.perm_append_singleton e l)

theorem pickChild_child {l : List UrlQueueEntry} {i : Nat}
    (h : pickChild l i ≠ i) :
    pickChild l i = 2 * i + 1 ∨ pickChild l i = 2 * i + 2 := by
  unfold pickChild at h ⊢
  simp only at h ⊢
  by_cases h1 : 2 * i + 1 < l.length ∧
      ekey (l.getD (2 * i + 1) default) < ekey (l.getD i default)
  · rw [if_pos h1] at h ⊢
    by_cases h2 : 2 * i + 2 < l.length ∧
        ekey (l.getD (2 * i + 2) default) < ekey (l.getD (2 * i + 1) default)
    · rw [if_pos h2]
      right
      rfl
    · rw [if_neg h2]
      left
      rfl
  · rw [if_neg h1] at h ⊢
    by_cases h2 : 2 * i + 2 < l.length ∧
        ekey (l.getD (2 * i + 2) default) < ekey (l.getD i default)
    · rw [if_pos h2]
      right
      rfl
    · rw [if_neg h2] at h
      exact absurd rfl h

theorem pickChild_spec {l : List UrlQueueEntry} {i : Nat}
    (h : pickChild l i ≠ i) :
    ekey (l.getD (pickChild l i) default) < ekey (l.getD i default) ∧
      ∀ c < l.length, (c = 2 * i + 1 ∨ c = 2 * i + 2) →
        ekey (l.getD (pickChild l i) default) ≤ ekey (l.getD c default) := by
  unfold pickChild at h ⊢
  simp only at h ⊢
  by_cases h1 : 2 * i + 1 < l.length ∧
      ekey (l.getD (2 * i + 1) default) < ekey (l.getD i default)
  · rw [if_pos h1] at h ⊢
    by_cases h2 : 2 * i + 2 < l.length ∧
        ekey (l.getD (2 * i + 2) default) < ekey (l.getD (2 * i + 1) default)
    · rw [if_pos h2]
      refine ⟨lt_trans h2.2 h1.2, ?_⟩
      intro c hc hcor
      rcases hcor with rfl | rfl
      · exact le_of_lt h2.2
      · exact le_refl _
    · rw [if_neg h2]
      refine ⟨h1.2, ?_⟩
      intro c hc hcor
      rcases hcor with rfl | rfl
      · exact le_refl _
      · exact Nat.le_of_not_lt (fun hlt => h2 ⟨hc, hlt⟩)
  · rw [if_neg h1] at h ⊢
    by_cases h2 : 2 * i + 2 < l.length ∧
        ekey (l.getD (2 * i + 2) default) < ekey (l.getD i default)
    · rw [if_pos h2] at h ⊢
      refine ⟨h2.2, ?_⟩
      intro c hc hcor
      rcases hcor with rfl | rfl
      · have hli : ekey (l.getD i default) ≤ ekey (l.getD (2 * i + 1) default) :=
          Nat.le_of_not_lt (fun hlt => h1 ⟨hc, hlt⟩)
        exact le_trans (le_of_lt h2.2) hli
      · exact le_refl _
    · rw [if_neg h2] at h
      exact absurd rfl h

theorem pickChild_eq_spec {l : List UrlQueueEntry} {i : Nat}
    (h : pickChild l i = i) :
    ∀ c < l.length, (c = 2 * i + 1 ∨ c = 2 * i + 2) →
      ekey (l.getD i default) ≤ ekey (l.getD c default) := by
  unfold pickChild at h
  simp only at h
  by_cases h1 : 2 * i + 1 < l.length ∧
      ekey (l.getD (2 * i + 1) default) < ekey (l.getD i default)
  · rw [if_pos h1] at h
    by_cases h2 : 2 * i + 2 < l.length ∧
        ekey (l.getD (2 * i + 2) default) < ekey (l.getD (2 * i + 1) default)
    · rw [if_pos h2] at h
      omega
    · rw [if_neg h2] at h
      omega
  · rw [if_neg h1] at h
    by_cases h2 : 2 * i + 2 < l.length ∧
        ekey (l.getD (2 * i + 2) default) < ekey (l.getD i default)
    · rw [if_pos h2] at h
      omega
    · intro c hc hcor
      rcases hcor with rfl | rfl
      · exact Nat.le_of_not_lt (fun hlt => h1 ⟨hc, hlt⟩)
      · exact Nat.le_of_not_lt (fun hlt => h2 ⟨hc, hlt⟩)

theorem siftDownAux_heapInv :
    ∀ (fuel : Nat) (l : List UrlQueueEntry) (i : Nat),
      l.length ≤ fuel + i → sdInv l i → heapInv (siftDownAux fuel l i) := by
  intro fuel
  induction fuel with
  | zero =>
    intro l i hf hsd
    simp only [siftDownAux]
    intro j hj hj0
    exact hsd.1 j hj hj0 (by omega)
  | succ fuel ih =>
    intro l i hf hsd
    simp only [siftDownAux]
    by_cases hm : pickChild l i = i
    · rw [if_pos hm]
      intro j hj hj0
      by_cases hpar : (j - 1) / 2 = i
      · have hcor : j = 2 * i + 1 ∨ j = 2 * i + 2 := by omega
        have := pickChild_eq_spec hm j hj hcor
        rw [hpar]
        exact this
      · exact hsd.1 j hj hj0 hpar
    · rw [if_neg hm]
      obtain ⟨hmgt, hmlen⟩ := pickChild_ne_bounds hm
      obtain ⟨hmlt, hmmin⟩ := pickChild_spec hm
      have hmchild := pickChild_child hm
      have hilen : i < l.length := by omega
      have hparm : (pickChild l i - 1) / 2 = i := by omega
      apply ih (hswap l i (pickChild l i)) (pickChild l i)
      · rw [hswap_length]
        omega
      · constructor
        · intro j hj hj0 hjm
          rw [hswap_length] at hj
          by_cases hjm2 : j = pickChild l i
          · subst hjm2
            rw [hparm, getD_hswap_i hilen hmlen, getD_hswap_j hmlen]
            exact le_of_lt hmlt
          · by_cases hji : j = i
            · subst hji
              have hpne_i : (j - 1) / 2 ≠ j := by omega
              have hpne_m : (j - 1) / 2 ≠ pickChild l j := by omega
              rw [getD_hswap_other hpne_i hpne_m, getD_hswap_i hilen hmlen]
              exact hsd.2 (by omega) (pickChild l j) hmlen hparm
            · by_cases hpar_i : (j - 1) / 2 = i
              · rw [hpar_i, getD_hswap_i hilen hmlen, getD_hswap_other hji hjm2]
                have hcor : j = 2 * i + 1 ∨ j = 2 * i + 2 := by omega
                exact hmmin j hj hcor
              · rw [getD_hswap_other hpar_i hjm, getD_hswap_other hji hjm2]
                exact hsd.1 j hj hj0 hpar_i
        · intro hm0 j hj hjpar
          rw [hswap_length] at hj
          have hjgt : pickChild l i < j := by omega
          have hjne_i : j ≠ i := by omega
          have hjne_m : j ≠ pickChild l i := by omega
          rw [hparm, getD_hswap_i hilen hmlen, getD_hswap_other hjne_i hjne_m]
          have hedge := hsd.1 j hj (by omega) (by omega)
          rw [hjpar] at hedge
          exact hedge

theorem heapInv_root_min {l : List UrlQueueEntry} (h : heapInv l) :
    ∀ j < l.length, ekey (l.getD 0 default) ≤ ekey (l.getD j default) := by
  intro j
  induction j using Nat.strong_induction_on with
  | _ j ih =>
    intro hj
    by_cases hj0 : j = 0
    · subst hj0
      exact le_refl _
    · have hedge := h j hj (by omega)
      have hrec := ih ((j - 1) / 2) (by omega) (by omega)
      exact le_trans hrec hedge

theorem getD_dropLast {l : List UrlQueueEntry} {k : Nat} (h : k < l.length - 1) :
    l.dropLast.getD k default = l.getD k default := by
  have h2 : k < l.length := by omega
  simp [List.getD, List.dropLast_eq_take, List.getElem?_take, h,
    List.getElem?_eq_getElem h2]

theorem heapPop_spec {l : List UrlQueueEntry} (hinv : heapInv l)
    {r : UrlQueueEntry} {rest : List UrlQueueEntry}
    (h : heapPop l = some (r, rest)) :
    r ∈ l ∧ (∀ y ∈ l, ekey r ≤ ekey y) ∧ heapInv rest ∧ (r :: rest).Perm l := by
  match l, h with
  | x :: xs, h =>
    simp only [heapPop, Option.some.injEq, Prod.mk.injEq] at h
    obtain ⟨rfl, hrest⟩ := h
    have hx0 : (x :: xs).getD 0 default = x := rfl
    have hmin : ∀ y ∈ x :: xs, ekey x ≤ ekey y := by
      intro y hy
      obtain ⟨n, hny⟩ := List.mem_iff_get.mp hy
      have hroot := heapInv_root_min hinv n n.isLt
      rw [hx0] at hroot
      have hgety : (x :: xs).getD (↑n) default = y := by
        rw [← hny]
        simp [List.getD, List.getElem?_eq_getElem n.isLt, List.get_eq_getElem]
      rw [hgety] at hroot
      exact hroot
    refine ⟨List.mem_cons_self x xs, hmin, ?_, ?_⟩
    · rw [← hrest]
      unfold siftDown
      apply siftDownAux_heapInv
      · omega
      · constructor
        · intro j hj hj0 hpar
          simp only [List.length_set] at hj
          have hlen : (x :: xs).dropLast.length = (x :: xs).length - 1 := by
            simp
          rw [hlen] at hj
          have hjd : ((x :: xs).dropLast.set 0 ((x :: xs).getLast (by simp))).getD j default
              = (x :: xs).getD j default := by
            rw [getD_set_ne _ (by omega), getD_dropLast (by omega)]
          have hpd : ((x :: xs).dropLast.set 0 ((x :: xs).getLast (by simp))).getD
                ((j - 1) / 2) default
              = (x :: xs).getD ((j - 1) / 2) default := by
            rw [getD_set_ne _ (by omega), getD_dropLast (by omega)]
          rw [hjd, hpd]
          exact hinv j (by omega) hj0
        · intro h0 j hj hpar
          omega
    · rw [← hrest]
      have hperm1 : (siftDown ((x :: xs).dropLast.set 0
            ((x :: xs).getLast (by simp))) 0).Perm
          ((x :: xs).dropLast.set 0 ((x :: xs).getLast (by simp))) :=
        siftDownAux_perm _ _ 0
      refine (List.Perm.cons x hperm1).trans ?_
      cases hxs : xs with
      | nil =>
        simp
      | cons b t =>
        have hne : xs ≠ [] := by rw [hxs]; simp
        have hdl : (x :: xs).dropLast = x :: xs.dropLast := by
          rw [hxs]
          simp
        have hlast : (x :: xs).getLast (by simp) = xs.getLast hne := by
          rw [List.getLast_cons hne]
        rw [← hxs, hdl, hlast]
        have hset : (x :: xs.dropLast).set 0 (xs.getLast hne)
            = xs.getLast hne :: xs.dropLast := by
          simp
        rw [hset]
        have : (xs.getLast hne :: xs.dropLast).Perm (xs.dropLast ++ [xs.getLast hne]) :=
          (List.perm_append_singleton _ _).symm
        refine (List.Perm.cons x this).trans ?_
        rw [List.dropLast_append_getLast hne]

/-! ## Claim C6: queue ordering -/

/-- C6 counterexample: four entries with equal `earliest_fetch` pushed in
order 1, 2, 3, 4 are popped as 1, then 4 — the heap has no
insertion-order tiebreak (`operator>` compares only `earliest_fetch`), so
equal-time entries do not come out FIFO (FIFO would give 2 second). -/
theorem queue_equal_times_not_fifo :
    (heapPop c6Heap).map (fun p => p.1.url) = some "1".toList ∧
      ((heapPop c6Heap).bind fun p => (heapPop p.2).map fun q => q.1.url)
        = some "4".toList ∧
      "4".toList ≠ "2".toList ∧
      (∀ e ∈ c6Heap, e.earliest_fetch = 7) := by
  decide

/-- C6 (amended): the queue is a binary min-heap on `earliest_fetch`:
`Push` preserves the heap invariant and adds exactly the pushed entry, and
a successful pop returns an entry of the queue whose `earliest_fetch` is
minimal among the entries currently in the queue, leaving the remaining
entries as a heap; among entries with equal `earliest_fetch` the order is
the heap's array order, not FIFO. -/
theorem queue_pop_min (l : List UrlQueueEntry) (e r : UrlQueueEntry)
    (rest : List UrlQueueEntry) :
    (heapInv l → heapInv (heapPush l e) ∧ (heapPush l e).Perm (e :: l)) ∧
      (heapInv l → heapPop l = some (r, rest) →
        r ∈ l ∧ (∀ y ∈ l, ekey r ≤ ekey y) ∧ heapInv rest ∧ (r :: rest).Perm l) := by
  constructor
  · intro h
    exact ⟨heapPush_heapInv h, heapPush_perm l e⟩
  · intro h hp
    exact heapPop_spec h hp

/-- C6 witness: the amended statement applied to the four-entry heap of the
counterexample. -/
theorem queue_pop_min_witness :
    c6Entry "1".toList ∈ c6Heap ∧
      (∀ y ∈ c6Heap, ekey (c6Entry "1".toList) ≤ ekey y) ∧
      heapInv [c6Entry "4".toList, c6Entry "2".toList, c6Entry "3".toList] ∧
      ((c6Entry "1".toList) ::
          [c6Entry "4".toList, c6Entry "2".toList, c6Entry "3".toList]).Perm c6Heap :=
  (queue_pop_min c6Heap default (c6Entry "1".toList)
      [c6Entry "4".toList, c6Entry "2".toList, c6Entry "3".toList]).2
    (by decide) (by decide)

end DuckdbCrawler
